import Mathlib

/-!
Verification of the terminal sprite engine (`newSimONE_V3_MLver7.py` and
`simONE_Vthree.py`): a shallow embedding of its color quantizer, sprite
rasterizers, canvas compositor and physics integrator, with theorems about
the specified properties.

Conventions of the embedding:
* Python floats are modelled as exact rationals (`ℚ`) where the code only
  performs field operations, and as reals (`ℝ`) where `math.hypot`
  introduces square roots; decimal literals are read as the decimal
  rationals they denote.
* Python `round` is half-to-even (`pyRound`), Python `int` truncates toward
  zero (`pyInt`), Python `%` on floats with a positive modulus is
  `p - m * ⌊p / m⌋` (`pymod`).
* Lists of lists stand for Python lists of lists; in-place element
  assignment becomes `List.set`.
-/

namespace SimOne

/-- Python `round` on an exact rational: round half to even. -/
def pyRound (q : ℚ) : ℤ :=
  if q - ⌊q⌋ < 1/2 then ⌊q⌋
  else if 1/2 < q - ⌊q⌋ then ⌊q⌋ + 1
  else if Even ⌊q⌋ then ⌊q⌋ else ⌊q⌋ + 1

/-- An RGB color as produced by the program: a triple of integers. -/
def Color := ℤ × ℤ × ℤ

instance : DecidableEq Color := by unfold Color; infer_instance

/-- Source `clamp(v)` with the default bounds `a=0, b=255`,
applied to an already integral value. -/
def clamp255 (v : ℤ) : ℤ := max 0 (min 255 v)

/-- Helper `to_index` in `rgb_to_ansi256`: `int(round((v/255.0)*5))`. -/
def to_index (v : ℤ) : ℤ := pyRound ((v : ℚ) / 255 * 5)

/-- Helper `from_index` in `rgb_to_ansi256`: `0 if i==0 else 55 + 40*i`. -/
def from_index (i : ℤ) : ℤ := if i = 0 then 0 else 55 + 40 * i

/-- Helper `gray_level` in `rgb_to_ansi256`: `int(round(((r+g+b)/3.0)/255.0*23))`. -/
def gray_level_of (r g b : ℤ) : ℤ := pyRound (((r : ℚ) + g + b) / 3 / 255 * 23)

/-- The 6×6×6 cube code `16 + 36*ri + 6*gi + bi` computed by
`rgb_to_ansi256` (arguments already clamped). -/
def cube_code (r g b : ℤ) : ℤ := 16 + 36 * to_index r + 6 * to_index g + to_index b

/-- The color `(cube_r, cube_g, cube_b)` the cube projection maps back to. -/
def cube_color (r g b : ℤ) : Color :=
  (from_index (to_index r), from_index (to_index g), from_index (to_index b))

/-- The grayscale value `8 + gray_level*10` and the gray projection color. -/
def gray_color (r g b : ℤ) : Color :=
  (8 + gray_level_of r g b * 10, 8 + gray_level_of r g b * 10, 8 + gray_level_of r g b * 10)

/-- Squared Euclidean distance between two colors, as computed for
`dc` and `dg` in `rgb_to_ansi256`. -/
def sq_dist (a b : Color) : ℤ :=
  (a.1 - b.1) ^ 2 + (a.2.1 - b.2.1) ^ 2 + (a.2.2 - b.2.2) ^ 2

/-- Source `rgb_to_ansi256(r, g, b)`: clamp each channel, project
onto the 6×6×6 cube and the 24-step gray ramp, and return the cube code
when `dc <= dg`, else the gray code `232 + gray_level`. -/
def rgb_to_ansi256 (r g b : ℤ) : ℤ :=
  let r := clamp255 r
  let g := clamp255 g
  let b := clamp255 b
  let dc := sq_dist (r, g, b) (cube_color r g b)
  let dg := sq_dist (r, g, b) (gray_color r g b)
  if dc ≤ dg then cube_code r g b else 232 + gray_level_of r g b

/-- The xterm-256 palette color denoted by a code in `[16, 255]`: cube
codes decode through `from_index` on the three digit indices, gray codes
through `8 + 10 * level`. -/
def ansi256_decode (c : ℤ) : Color :=
  if c < 232 then
    (from_index ((c - 16) / 36), from_index ((c - 16) % 36 / 6), from_index ((c - 16) % 36 % 6))
  else
    (8 + (c - 232) * 10, 8 + (c - 232) * 10, 8 + (c - 232) * 10)

theorem pyRound_bounds (q : ℚ) (a b : ℤ) (ha : (a : ℚ) ≤ q) (hb : q ≤ (b : ℚ)) :
    a ≤ pyRound q ∧ pyRound q ≤ b := by
  have hfa : a ≤ ⌊q⌋ := Int.le_floor.mpr ha
  have hfb : ⌊q⌋ ≤ b := by
    have h := Int.floor_le_floor hb
    simpa using h
  have hflo : (⌊q⌋ : ℚ) ≤ q := Int.floor_le q
  constructor
  · unfold pyRound
    split
    · exact hfa
    split
    · omega
    split
    · exact hfa
    · omega
  · unfold pyRound
    split
    · exact hfb
    rename_i hge
    push_neg at hge
    have hlt : (⌊q⌋ : ℚ) < q := by linarith
    have hfb2 : ⌊q⌋ < b := by
      by_contra hcon
      push_neg at hcon
      have heq : ⌊q⌋ = b := le_antisymm hfb hcon
      have : (b : ℚ) < q := by rw [← heq]; exact hlt
      linarith
    split
    · omega
    split <;> omega

theorem to_index_bounds (v : ℤ) (h0 : 0 ≤ v) (h1 : v ≤ 255) :
    0 ≤ to_index v ∧ to_index v ≤ 5 := by
  unfold to_index
  have ha : ((0 : ℤ) : ℚ) ≤ (v : ℚ) / 255 * 5 := by
    have : (0 : ℚ) ≤ (v : ℚ) := by exact_mod_cast h0
    positivity
  have hb : (v : ℚ) / 255 * 5 ≤ ((5 : ℤ) : ℚ) := by
    have : (v : ℚ) ≤ 255 := by exact_mod_cast h1
    rw [div_mul_eq_mul_div, div_le_iff₀ (by norm_num)]
    push_cast
    linarith
  exact pyRound_bounds _ 0 5 ha hb

theorem gray_level_bounds (r g b : ℤ) (h0r : 0 ≤ r) (h1r : r ≤ 255)
    (h0g : 0 ≤ g) (h1g : g ≤ 255) (h0b : 0 ≤ b) (h1b : b ≤ 255) :
    0 ≤ gray_level_of r g b ∧ gray_level_of r g b ≤ 23 := by
  unfold gray_level_of
  have ha : ((0 : ℤ) : ℚ) ≤ ((r : ℚ) + g + b) / 3 / 255 * 23 := by
    have hr : (0 : ℚ) ≤ (r : ℚ) := by exact_mod_cast h0r
    have hg : (0 : ℚ) ≤ (g : ℚ) := by exact_mod_cast h0g
    have hb' : (0 : ℚ) ≤ (b : ℚ) := by exact_mod_cast h0b
    positivity
  have hbnd : ((r : ℚ) + g + b) / 3 / 255 * 23 ≤ ((23 : ℤ) : ℚ) := by
    have hr : (r : ℚ) ≤ 255 := by exact_mod_cast h1r
    have hg : (g : ℚ) ≤ 255 := by exact_mod_cast h1g
    have hb' : (b : ℚ) ≤ 255 := by exact_mod_cast h1b
    rw [div_div, div_mul_eq_mul_div, div_le_iff₀ (by norm_num)]
    push_cast
    linarith
  exact pyRound_bounds _ 0 23 ha hbnd

theorem clamp255_eq_self (v : ℤ) (h0 : 0 ≤ v) (h1 : v ≤ 255) : clamp255 v = v := by
  unfold clamp255; omega

theorem clamp255_mem (v : ℤ) : 0 ≤ clamp255 v ∧ clamp255 v ≤ 255 := by
  unfold clamp255; omega

theorem ansi256_decode_cube (r g b : ℤ) (h0 : 0 ≤ r) (h1 : r ≤ 255)
    (h0g : 0 ≤ g) (h1g : g ≤ 255) (h0b : 0 ≤ b) (h1b : b ≤ 255) :
    ansi256_decode (cube_code r g b) = cube_color r g b := by
  obtain ⟨hri0, hri5⟩ := to_index_bounds r h0 h1
  obtain ⟨hgi0, hgi5⟩ := to_index_bounds g h0g h1g
  obtain ⟨hbi0, hbi5⟩ := to_index_bounds b h0b h1b
  unfold ansi256_decode cube_code cube_color
  rw [if_pos (by omega)]
  have h36 : (16 + 36 * to_index r + 6 * to_index g + to_index b - 16) / 36 = to_index r := by
    omega
  have hm36 : (16 + 36 * to_index r + 6 * to_index g + to_index b - 16) % 36
      = 6 * to_index g + to_index b := by
    omega
  rw [h36, hm36]
  have h6 : (6 * to_index g + to_index b) / 6 = to_index g := by omega
  have hm6 : (6 * to_index g + to_index b) % 6 = to_index b := by omega
  rw [h6, hm6]

theorem ansi256_decode_gray (r g b : ℤ) (h0 : 0 ≤ r) (h1 : r ≤ 255)
    (h0g : 0 ≤ g) (h1g : g ≤ 255) (h0b : 0 ≤ b) (h1b : b ≤ 255) :
    ansi256_decode (232 + gray_level_of r g b) = gray_color r g b := by
  obtain ⟨hl0, hl23⟩ := gray_level_bounds r g b h0 h1 h0g h1g h0b h1b
  unfold ansi256_decode gray_color
  rw [if_neg (by omega)]
  ring_nf

/-- C4: for every 24-bit input color, `rgb_to_ansi256` returns the
projection (6×6×6 cube or 24-step gray ramp) whose squared Euclidean
distance to the input is smaller, resolving ties to the cube projection;
hence the chosen representation's squared distance to the input is ≤ the
rejected alternative's. -/
theorem quantizer_chooses_nearer_projection (r g b : ℤ)
    (h0r : 0 ≤ r) (h1r : r ≤ 255) (h0g : 0 ≤ g) (h1g : g ≤ 255)
    (h0b : 0 ≤ b) (h1b : b ≤ 255) :
    sq_dist (r, g, b) (ansi256_decode (rgb_to_ansi256 r g b))
        ≤ sq_dist (r, g, b) (cube_color r g b)
    ∧ sq_dist (r, g, b) (ansi256_decode (rgb_to_ansi256 r g b))
        ≤ sq_dist (r, g, b) (gray_color r g b)
    ∧ (sq_dist (r, g, b) (cube_color r g b) ≤ sq_dist (r, g, b) (gray_color r g b) →
        rgb_to_ansi256 r g b = cube_code r g b)
    ∧ (sq_dist (r, g, b) (gray_color r g b) < sq_dist (r, g, b) (cube_color r g b) →
        rgb_to_ansi256 r g b = 232 + gray_level_of r g b) := by
  have hcr := clamp255_eq_self r h0r h1r
  have hcg := clamp255_eq_self g h0g h1g
  have hcb := clamp255_eq_self b h0b h1b
  have hdef : rgb_to_ansi256 r g b =
      if sq_dist (r, g, b) (cube_color r g b) ≤ sq_dist (r, g, b) (gray_color r g b)
      then cube_code r g b else 232 + gray_level_of r g b := by
    unfold rgb_to_ansi256
    rw [hcr, hcg, hcb]
  by_cases hle : sq_dist (r, g, b) (cube_color r g b) ≤ sq_dist (r, g, b) (gray_color r g b)
  · rw [hdef, if_pos hle, ansi256_decode_cube r g b h0r h1r h0g h1g h0b h1b]
    exact ⟨le_refl _, hle, fun _ => rfl, fun hlt => absurd hlt (not_lt.mpr hle)⟩
  · rw [hdef, if_neg hle, ansi256_decode_gray r g b h0r h1r h0g h1g h0b h1b]
    push_neg at hle
    exact ⟨le_of_lt hle, le_refl _, fun h => absurd h (not_le.mpr hle), fun _ => rfl⟩

/-- C4 witness at the concrete input (10, 20, 30). -/
theorem quantizer_chooses_nearer_projection_witness :
    (0 ≤ (10 : ℤ) ∧ (10 : ℤ) ≤ 255) ∧
    sq_dist (10, 20, 30) (ansi256_decode (rgb_to_ansi256 10 20 30))
      ≤ sq_dist (10, 20, 30) (cube_color 10 20 30) ∧
    sq_dist (10, 20, 30) (ansi256_decode (rgb_to_ansi256 10 20 30))
      ≤ sq_dist (10, 20, 30) (gray_color 10 20 30) :=
  ⟨⟨by norm_num, by norm_num⟩,
    (quantizer_chooses_nearer_projection 10 20 30 (by norm_num) (by norm_num)
      (by norm_num) (by norm_num) (by norm_num) (by norm_num)).1,
    (quantizer_chooses_nearer_projection 10 20 30 (by norm_num) (by norm_num)
      (by norm_num) (by norm_num) (by norm_num) (by norm_num)).2.1⟩

/-- C10: for every integer input triple the 256-color index computation
returns a valid xterm-256 index: a cube code in `[16, 231]` when the cube
projection wins, a grayscale code in `[232, 255]` otherwise, never one of
the 16 basic indices `0`–`15`. -/
theorem quantizer_range (r g b : ℤ) :
    (rgb_to_ansi256 r g b = cube_code (clamp255 r) (clamp255 g) (clamp255 b)
        ∧ 16 ≤ rgb_to_ansi256 r g b ∧ rgb_to_ansi256 r g b ≤ 231)
    ∨ (rgb_to_ansi256 r g b = 232 + gray_level_of (clamp255 r) (clamp255 g) (clamp255 b)
        ∧ 232 ≤ rgb_to_ansi256 r g b ∧ rgb_to_ansi256 r g b ≤ 255) := by
  obtain ⟨hr0, hr1⟩ := clamp255_mem r
  obtain ⟨hg0, hg1⟩ := clamp255_mem g
  obtain ⟨hb0, hb1⟩ := clamp255_mem b
  obtain ⟨hri0, hri5⟩ := to_index_bounds (clamp255 r) hr0 hr1
  obtain ⟨hgi0, hgi5⟩ := to_index_bounds (clamp255 g) hg0 hg1
  obtain ⟨hbi0, hbi5⟩ := to_index_bounds (clamp255 b) hb0 hb1
  obtain ⟨hl0, hl23⟩ := gray_level_bounds (clamp255 r) (clamp255 g) (clamp255 b) hr0 hr1 hg0 hg1 hb0 hb1
  have hdef : rgb_to_ansi256 r g b =
      if sq_dist (clamp255 r, clamp255 g, clamp255 b)
            (cube_color (clamp255 r) (clamp255 g) (clamp255 b))
          ≤ sq_dist (clamp255 r, clamp255 g, clamp255 b)
            (gray_color (clamp255 r) (clamp255 g) (clamp255 b))
      then cube_code (clamp255 r) (clamp255 g) (clamp255 b)
      else 232 + gray_level_of (clamp255 r) (clamp255 g) (clamp255 b) := rfl
  rw [hdef]
  split
  · left
    refine ⟨rfl, ?_, ?_⟩ <;> unfold cube_code <;> omega
  · right
    exact ⟨rfl, by omega, by omega⟩

/-- Python `%` for a real (float) position and modulus:
`p % m = p - m * ⌊p / m⌋` (for the positive moduli used by the wrap step). -/
def pymod (p m : ℚ) : ℚ := p - m * ⌊p / m⌋

/-- C8: for every position `p` and positive modulus `m`, the wrapped
position `p % m` computed at the end of a physics tick lies in `[0, m)`. -/
theorem pymod_mem_Ico (p m : ℚ) (hm : 0 < m) : 0 ≤ pymod p m ∧ pymod p m < m := by
  unfold pymod
  have h1 : (⌊p / m⌋ : ℚ) ≤ p / m := Int.floor_le _
  have h2 : p / m < ⌊p / m⌋ + 1 := Int.lt_floor_add_one _
  have hmul1 : m * (⌊p / m⌋ : ℚ) ≤ m * (p / m) :=
    mul_le_mul_of_nonneg_left h1 (le_of_lt hm)
  have hmul2 : m * (p / m) < m * ((⌊p / m⌋ : ℚ) + 1) :=
    (mul_lt_mul_left hm).mpr h2
  rw [mul_div_cancel₀ p (ne_of_gt hm)] at hmul1 hmul2
  constructor <;> linarith

/-- C8 witness: wrapping the negative position `-3` by modulus `2`
lands in `[0, 2)`. -/
theorem pymod_mem_Ico_witness :
    (0 : ℚ) < 2 ∧ 0 ≤ pymod (-3) 2 ∧ pymod (-3) 2 < 2 :=
  ⟨by norm_num, (pymod_mem_Ico (-3) 2 (by norm_num)).1, (pymod_mem_Ico (-3) 2 (by norm_num)).2⟩

/-! ## Physics integrator (`main`, lines 546–569 of `newSimONE_V3_MLver7.py`;
lines 258–299 of `simONE_Vthree.py`) -/

/-- The acceleration, damping and thrust constants `AC, DE, TH = 0.05, 0.98, 0.42`. -/
def AC : ℚ := 5 / 100

/-- Damping factor. -/
def DE : ℚ := 98 / 100

/-- Thrust magnitude per held key. -/
def TH : ℚ := 42 / 100

/-- The moving body's state: position `(x1, y1)` and velocity `(vx1, vy1)`. -/
structure Body where
  x : ℚ
  y : ℚ
  vx : ℚ
  vy : ℚ

/-- One physics tick of the render loop: thrust for each held key, a
constant-magnitude centering force toward the anchor `(x0, y0)`, explicit
Euler integration, isotropic damping, and a toroidal wrap into the terminal
rectangle (the loop forces `sw`/`sh` to 1 when non-positive before
wrapping). -/
def physics_tick (tw ts ta td : Bool) (x0 y0 sw sh : ℚ) (b : Body) : Body :=
  let vy1 := b.vy + (if tw then -TH else 0) + (if ts then TH else 0)
  let vx1 := b.vx + (if ta then -TH else 0) + (if td then TH else 0)
  let vx1 := if b.x < x0 then vx1 + AC else vx1 - AC
  let vy1 := if b.y < y0 then vy1 + AC else vy1 - AC
  let x1 := b.x + vx1
  let y1 := b.y + vy1
  let vx1 := vx1 * DE
  let vy1 := vy1 * DE
  let sw := if sw ≤ 0 then 1 else sw
  let sh := if sh ≤ 0 then 1 else sh
  { x := pymod x1 sw, y := pymod y1 sh, vx := vx1, vy := vy1 }

/-- Iterating `n` physics ticks with no thrust key held. -/
def coast (x0 y0 sw sh : ℚ) (n : ℕ) (b : Body) : Body :=
  (physics_tick false false false false x0 y0 sw sh)^[n] b

/-- C3 counterexample: the claim that with zero thrust and a start exactly
at the anchor the velocity magnitude is `|v_0| * DE ^ n` fails already at
`n = 1` (stated on squared magnitudes, which is equivalent since both sides
are nonnegative): the constant-magnitude centering force is applied even at
the anchor (the `else` branch subtracts `AC`), so a body starting at rest
at the anchor has speed `0.049 * sqrt 2 ≠ 0` after one tick. -/
theorem coast_not_geometric_decay :
    ¬((coast 2 2 5 5 1 ⟨2, 2, 0, 0⟩).vx ^ 2 + (coast 2 2 5 5 1 ⟨2, 2, 0, 0⟩).vy ^ 2
      = ((0 : ℚ) ^ 2 + (0 : ℚ) ^ 2) * (DE ^ 1) ^ 2) := by
  have h1 : coast 2 2 5 5 1 ⟨2, 2, 0, 0⟩ = physics_tick false false false false 2 2 5 5 ⟨2, 2, 0, 0⟩ := by
    unfold coast
    rw [Function.iterate_one]
  rw [h1]
  unfold physics_tick
  norm_num [AC, DE, TH]

/-- The closed-form bound on a coasting velocity component after `n` ticks:
`|v_0| * DE^n` plus the geometric accumulation of the centering force,
`AC * DE * (1 - DE^n) / (1 - DE) = (49/20) * (1 - DE^n)`. -/
def coast_bound (v0 : ℚ) (n : ℕ) : ℚ := |v0| * DE ^ n + (49 / 20) * (1 - DE ^ n)

theorem coast_bound_step (v : ℚ) (n : ℕ) (h : |v| ≤ coast_bound v0 n) :
    (|v| + AC) * DE ≤ coast_bound v0 (n + 1) := by
  unfold coast_bound at *
  unfold AC DE at *
  have hpow : (98 / 100 : ℚ) ^ (n + 1) = (98 / 100) ^ n * (98 / 100) := pow_succ _ _
  rw [hpow]
  nlinarith [abs_nonneg v, abs_nonneg v0]

theorem abs_tick_vx_le (b : Body) (x0 y0 sw sh : ℚ) :
    |(physics_tick false false false false x0 y0 sw sh b).vx| ≤ (|b.vx| + AC) * DE := by
  unfold physics_tick
  simp only
  rw [abs_mul]
  have hDE : |DE| = DE := by unfold DE; norm_num
  rw [hDE]
  apply mul_le_mul_of_nonneg_right _ (by unfold DE; norm_num)
  split
  · calc |b.vx + 0 + 0 + AC| ≤ |b.vx + 0 + 0| + |AC| := abs_add _ _
      _ = |b.vx| + AC := by rw [add_zero, add_zero]; unfold AC; norm_num
  · calc |b.vx + 0 + 0 - AC| ≤ |b.vx + 0 + 0| + |AC| := abs_sub _ _
      _ = |b.vx| + AC := by rw [add_zero, add_zero]; unfold AC; norm_num

theorem abs_tick_vy_le (b : Body) (x0 y0 sw sh : ℚ) :
    |(physics_tick false false false false x0 y0 sw sh b).vy| ≤ (|b.vy| + AC) * DE := by
  unfold physics_tick
  simp only
  rw [abs_mul]
  have hDE : |DE| = DE := by unfold DE; norm_num
  rw [hDE]
  apply mul_le_mul_of_nonneg_right _ (by unfold DE; norm_num)
  split
  · calc |b.vy + 0 + 0 + AC| ≤ |b.vy + 0 + 0| + |AC| := abs_add _ _
      _ = |b.vy| + AC := by rw [add_zero, add_zero]; unfold AC; norm_num
  · calc |b.vy + 0 + 0 - AC| ≤ |b.vy + 0 + 0| + |AC| := abs_sub _ _
      _ = |b.vy| + AC := by rw [add_zero, add_zero]; unfold AC; norm_num

/-- C3 (amended): with zero thrust and the moving body starting exactly at
the anchor, each velocity component is not exactly geometric but stays
bounded by `|v_0| * DE^n + AC * DE * (1 - DE^n) / (1 - DE)` (the centering
force of magnitude `AC` fires on every tick, even at the anchor), and the
position never diverges: after every tick it lies in `[0, sw) × [0, sh)`
(the toroidal wrap). -/
theorem coast_velocity_bounded (x0 y0 sw sh : ℚ) (b0 : Body)
    (hx : b0.x = x0) (hy : b0.y = y0) (hsw : 0 < sw) (hsh : 0 < sh) :
    ∀ n : ℕ,
      |(coast x0 y0 sw sh n b0).vx| ≤ coast_bound b0.vx n
      ∧ |(coast x0 y0 sw sh n b0).vy| ≤ coast_bound b0.vy n
      ∧ (1 ≤ n → 0 ≤ (coast x0 y0 sw sh n b0).x ∧ (coast x0 y0 sw sh n b0).x < sw
          ∧ 0 ≤ (coast x0 y0 sw sh n b0).y ∧ (coast x0 y0 sw sh n b0).y < sh) := by
  intro n
  induction n with
  | zero =>
    refine ⟨?_, ?_, by omega⟩ <;>
      simp [coast, coast_bound]
  | succ n ih =>
    obtain ⟨ihx, ihy, _⟩ := ih
    have hstep : coast x0 y0 sw sh (n + 1) b0
        = physics_tick false false false false x0 y0 sw sh (coast x0 y0 sw sh n b0) := by
      unfold coast
      rw [Function.iterate_succ_apply']
    refine ⟨?_, ?_, ?_⟩
    · rw [hstep]
      calc |(physics_tick false false false false x0 y0 sw sh (coast x0 y0 sw sh n b0)).vx|
          ≤ (|(coast x0 y0 sw sh n b0).vx| + AC) * DE := abs_tick_vx_le _ _ _ _ _
        _ ≤ coast_bound b0.vx (n + 1) := by
            have h1 : |(coast x0 y0 sw sh n b0).vx| + AC ≤ coast_bound b0.vx n + AC := by linarith
            calc (|(coast x0 y0 sw sh n b0).vx| + AC) * DE
                ≤ (coast_bound b0.vx n + AC) * DE := by
                  apply mul_le_mul_of_nonneg_right _ (by unfold DE; norm_num)
                  linarith
              _ = coast_bound b0.vx (n + 1) := by
                  unfold coast_bound AC DE
                  rw [pow_succ]
                  ring
    · rw [hstep]
      calc |(physics_tick false false false false x0 y0 sw sh (coast x0 y0 sw sh n b0)).vy|
          ≤ (|(coast x0 y0 sw sh n b0).vy| + AC) * DE := abs_tick_vy_le _ _ _ _ _
        _ ≤ coast_bound b0.vy (n + 1) := by
            calc (|(coast x0 y0 sw sh n b0).vy| + AC) * DE
                ≤ (coast_bound b0.vy n + AC) * DE := by
                  apply mul_le_mul_of_nonneg_right _ (by unfold DE; norm_num)
                  linarith
              _ = coast_bound b0.vy (n + 1) := by
                  unfold coast_bound AC DE
                  rw [pow_succ]
                  ring
    · intro _
      rw [hstep]
      unfold physics_tick
      simp only
      rw [if_neg (not_le.mpr hsw), if_neg (not_le.mpr hsh)]
      exact ⟨(pymod_mem_Ico _ _ hsw).1, (pymod_mem_Ico _ _ hsw).2,
        (pymod_mem_Ico _ _ hsh).1, (pymod_mem_Ico _ _ hsh).2⟩

/-- C3 witness: the amended bound at the concrete instance
`x0 = y0 = 2`, `sw = sh = 5`, start at rest at the anchor, `n = 1`. -/
theorem coast_velocity_bounded_witness :
    ((⟨2, 2, 0, 0⟩ : Body).x = 2 ∧ (0 : ℚ) < 5) ∧
    |(coast 2 2 5 5 1 ⟨2, 2, 0, 0⟩).vx| ≤ coast_bound (0 : ℚ) 1 ∧
    (0 ≤ (coast 2 2 5 5 1 ⟨2, 2, 0, 0⟩).x ∧ (coast 2 2 5 5 1 ⟨2, 2, 0, 0⟩).x < 5) :=
  ⟨⟨rfl, by norm_num⟩,
    (coast_velocity_bounded 2 2 5 5 ⟨2, 2, 0, 0⟩ rfl rfl (by norm_num) (by norm_num) 1).1,
    ⟨((coast_velocity_bounded 2 2 5 5 ⟨2, 2, 0, 0⟩ rfl rfl (by norm_num) (by norm_num) 1).2.2
        (by norm_num)).1,
      ((coast_velocity_bounded 2 2 5 5 ⟨2, 2, 0, 0⟩ rfl rfl (by norm_num) (by norm_num) 1).2.2
        (by norm_num)).2.1⟩⟩

/-! ## PNG sprite rasterizer (`load_png_sprite`, lines 240–323) -/

/-- A high-resolution RGBA pixel `(r, g, b, a)` with 8-bit channels, as
delivered by the decoding service after resizing (`hr_px[x, y]`). -/
def RGBA := ℤ × ℤ × ℤ × ℤ

/-- The four accumulators and the sample counter of `load_png_sprite`'s block
loop: `accum_r`, `accum_g`, `accum_b`, `accum_a`, `count`. -/
structure PngAcc where
  r : ℚ
  g : ℚ
  b : ℚ
  a : ℚ
  count : ℕ

/-- The accumulation loop of `load_png_sprite` over one output cell's
`ss × ss` high-resolution block: alpha-weighted channel sums
(`accum_r += r * (a/255)` and so on), the raw alpha sum, and the sample
count. `px` is indexed `px x y` like `hr_px[x, y]`. -/
def png_accum (px : ℕ → ℕ → RGBA) (ss : ℕ) (cy cx : ℕ) : PngAcc :=
  (List.range ss).foldl (fun acc oy =>
    (List.range ss).foldl (fun acc2 ox =>
      let p := px (cx * ss + ox) (cy * ss + oy)
      { r := acc2.r + (p.1 : ℚ) * ((p.2.2.2 : ℚ) / 255),
        g := acc2.g + (p.2.1 : ℚ) * ((p.2.2.2 : ℚ) / 255),
        b := acc2.b + (p.2.2.1 : ℚ) * ((p.2.2.2 : ℚ) / 255),
        a := acc2.a + (p.2.2.2 : ℚ),
        count := acc2.count + 1 }) acc)
    ⟨0, 0, 0, 0, 0⟩

/-- One output cell of the PNG rasterizer: if the block's mean coverage
alpha `accum_a / (count * 255)` is below `0.01` the cell is transparent;
otherwise the premultiplied sums are un-premultiplied and composited over
the background. -/
def png_cell (px : ℕ → ℕ → RGBA) (ss : ℕ) (bg : Color) (cy cx : ℕ) : Option Color :=
  let A := png_accum px ss cy cx
  if A.count = 0 then none
  else
    let avg_a := A.a / ((A.count : ℚ) * 255)
    if avg_a < 1 / 100 then none
    else
      let avg_r := if 0 < avg_a then A.r / ((A.count : ℚ) * avg_a) else 0
      let avg_g := if 0 < avg_a then A.g / ((A.count : ℚ) * avg_a) else 0
      let avg_b := if 0 < avg_a then A.b / ((A.count : ℚ) * avg_a) else 0
      some (pyRound (avg_r * avg_a + (bg.1 : ℚ) * (1 - avg_a)),
            pyRound (avg_g * avg_a + (bg.2.1 : ℚ) * (1 - avg_a)),
            pyRound (avg_b * avg_a + (bg.2.2 : ℚ) * (1 - avg_a)))

theorem foldl_count_add {α : Type} (k : ℕ) (F : PngAcc → α → PngAcc)
    (hF : ∀ a x, (F a x).count = a.count + k) :
    ∀ (l : List α) (acc : PngAcc),
      (l.foldl F acc).count = acc.count + k * l.length := by
  intro l
  induction l with
  | nil => intro acc; simp
  | cons hd tl ih =>
    intro acc
    rw [List.foldl_cons, ih, hF]
    rw [List.length_cons, Nat.mul_succ]
    omega

theorem png_accum_count (px : ℕ → ℕ → RGBA) (ss : ℕ) (cy cx : ℕ) :
    (png_accum px ss cy cx).count = ss * ss := by
  unfold png_accum
  have houter := foldl_count_add ss
    (fun acc oy => (List.range ss).foldl (fun acc2 ox =>
      let p := px (cx * ss + ox) (cy * ss + oy)
      { r := acc2.r + (p.1 : ℚ) * ((p.2.2.2 : ℚ) / 255),
        g := acc2.g + (p.2.1 : ℚ) * ((p.2.2.2 : ℚ) / 255),
        b := acc2.b + (p.2.2.1 : ℚ) * ((p.2.2.2 : ℚ) / 255),
        a := acc2.a + (p.2.2.2 : ℚ),
        count := acc2.count + 1 }) acc)
    (fun a oy => by
      have hinner := foldl_count_add 1 (fun acc2 ox =>
        let p := px (cx * ss + ox) (cy * ss + oy)
        { r := acc2.r + (p.1 : ℚ) * ((p.2.2.2 : ℚ) / 255),
          g := acc2.g + (p.2.1 : ℚ) * ((p.2.2.2 : ℚ) / 255),
          b := acc2.b + (p.2.2.1 : ℚ) * ((p.2.2.2 : ℚ) / 255),
          a := acc2.a + (p.2.2.2 : ℚ),
          count := acc2.count + 1 }) (fun _ _ => rfl) (List.range ss) a
      simpa using hinner)
    (List.range ss) ⟨0, 0, 0, 0, 0⟩
  simpa using houter

/-- C6: a rasterized sprite cell whose mean coverage alpha
`Σ alpha / (S² · 255)` is strictly below `0.01` is exactly transparent,
regardless of the accumulated channel values. -/
theorem png_cell_transparent_below_threshold (px : ℕ → ℕ → RGBA) (ss : ℕ)
    (bg : Color) (cy cx : ℕ)
    (h : (png_accum px ss cy cx).a / (((ss * ss : ℕ) : ℚ) * 255) < 1 / 100) :
    png_cell px ss bg cy cx = none := by
  have hcount := png_accum_count px ss cy cx
  simp only [png_cell]
  rw [hcount]
  by_cases hss : ss * ss = 0
  · rw [if_pos hss]
  · rw [if_neg hss, if_pos h]

/-- C6 witness: a fully transparent high-resolution block (all alphas 0)
yields a transparent cell. -/
theorem png_cell_transparent_below_threshold_witness :
    ((png_accum (fun _ _ => ((0, 0, 0, 0) : RGBA)) 1 0 0).a
        / (((1 * 1 : ℕ) : ℚ) * 255) < 1 / 100)
    ∧ png_cell (fun _ _ => ((0, 0, 0, 0) : RGBA)) 1 (18, 8, 84) 0 0 = none := by
  have hlt : (png_accum (fun _ _ => ((0, 0, 0, 0) : RGBA)) 1 0 0).a
      / (((1 * 1 : ℕ) : ℚ) * 255) < 1 / 100 := by
    norm_num [png_accum, List.range_succ]
  exact ⟨hlt, png_cell_transparent_below_threshold _ 1 (18, 8, 84) 0 0 hlt⟩

/-! ## Procedural disc generator (`generate_smooth_circle`, lines 328–382)

The high-resolution pass works with `math.hypot` distances, so this part of
the embedding lives in `ℝ`. -/

/-- Python `int()` truncation toward zero, on a real. -/
noncomputable def pyInt (x : ℝ) : ℤ := if 0 ≤ x then ⌊x⌋ else -⌊-x⌋

/-- Source `clamp(v)` on a real intermediate value:
`max(0, min(255, int(v)))`. -/
noncomputable def clampR (x : ℝ) : ℤ := max 0 (min 255 (pyInt x))

/-- Source `blend(c1, c2, t)`: per-channel linear interpolation,
truncated and clamped to `[0, 255]`. -/
noncomputable def blend (c1 c2 : Color) (t : ℝ) : Color :=
  (clampR ((c1.1 : ℝ) * (1 - t) + (c2.1 : ℝ) * t),
   clampR ((c1.2.1 : ℝ) * (1 - t) + (c2.2.1 : ℝ) * t),
   clampR ((c1.2.2 : ℝ) * (1 - t) + (c2.2.2 : ℝ) * t))

/-- The literal `1e-9` that pads denominators in `generate_smooth_circle`. -/
noncomputable def epsR : ℝ := 1 / 1000000000

/-- The literal `1e-6` guarding the degenerate edge band. -/
noncomputable def eps6 : ℝ := 1 / 1000000

/-- The edge-interpolation parameter `t_edge` computed by
`generate_smooth_circle` for a high-resolution point at distance `dist`:
`dn = dist / (rad_hr + 1e-9)`, `edge_start = max(0, (rad_hr -
edge_thickness_hr) / (rad_hr + 1e-9))`, and when `dn ≥ edge_start` the
clamped linear ramp `(dn - edge_start) / (1 - edge_start)` (or 1 when the
band is degenerate). -/
noncomputable def t_edge (rad_hr edge_thickness_hr dist : ℝ) : ℝ :=
  let dn := dist / (rad_hr + epsR)
  let edge_start := max 0 ((rad_hr - edge_thickness_hr) / (rad_hr + epsR))
  if edge_start ≤ dn then
    (if eps6 < 1 - edge_start then max 0 (min 1 ((dn - edge_start) / (1 - edge_start))) else 1)
  else 0

/-- Distance of the high-resolution point `(y, x)` from the supersampled
center `(high - 1) / 2`, as computed with `math.hypot`. -/
noncomputable def dist_hr (radius_cells : ℕ) (supersample : ℤ) (y x : ℕ) : ℝ :=
  let cells := 2 * radius_cells + 1
  let ss := (max 1 supersample).toNat
  let high := cells * ss
  let center := ((high : ℝ) - 1) / 2
  Real.sqrt (((x : ℝ) - center) ^ 2 + ((y : ℝ) - center) ^ 2)

/-- One high-resolution sample of `generate_smooth_circle`: a point within
`rad_hr + 0.25*ss` of the center gets `blend(color, edge, t_edge)` (or the
base color when no edge color is given); points beyond are `None`. -/
noncomputable def hr_point_color (color_rgb : Color) (edge_rgb : Option Color)
    (radius_cells : ℕ) (supersample : ℤ) (edge_width : ℝ) (y x : ℕ) : Option Color :=
  let ss := (max 1 supersample).toNat
  let rad_hr : ℝ := (radius_cells : ℝ) * ss
  let edge_thickness_hr : ℝ := max 1 (edge_width * rad_hr)
  let dist := dist_hr radius_cells supersample y x
  if dist ≤ rad_hr + (1 / 4) * ss then
    some (match edge_rgb with
          | some e => blend color_rgb e (t_edge rad_hr edge_thickness_hr dist)
          | none => color_rgb)
  else none

/-- Source `generate_smooth_circle(radius_cells, color_rgb, edge_rgb, supersample,
edge_width)`: rasterize the high-resolution disc, then box-average each
`ss × ss` block of covered samples, compositing the block average over the
(module-global) background `bg_rgb` by the coverage fraction. -/
noncomputable def generate_smooth_circle (radius_cells : ℕ) (color_rgb : Color)
    (edge_rgb : Option Color) (supersample : ℤ) (edge_width : ℝ) (bg_rgb : Color) :
    List (List (Option Color)) :=
  let cells := 2 * radius_cells + 1
  let ss := (max 1 supersample).toNat
  (List.range cells).map fun cy =>
    (List.range cells).map fun cx =>
      let vals := (((List.range ss).flatMap fun oy => (List.range ss).map fun ox =>
          (cy * ss + oy, cx * ss + ox)).filterMap fun p =>
            hr_point_color color_rgb edge_rgb radius_cells supersample edge_width p.1 p.2)
      let covered := vals.length
      if covered = 0 then none
      else
        let accum_r := (vals.map fun c => (c.1 : ℚ)).sum
        let accum_g := (vals.map fun c => (c.2.1 : ℚ)).sum
        let accum_b := (vals.map fun c => (c.2.2 : ℚ)).sum
        let cov : ℚ := (covered : ℚ) / ((ss * ss : ℕ) : ℚ)
        some (pyRound (accum_r / covered * cov + (bg_rgb.1 : ℚ) * (1 - cov)),
              pyRound (accum_g / covered * cov + (bg_rgb.2.1 : ℚ) * (1 - cov)),
              pyRound (accum_b / covered * cov + (bg_rgb.2.2 : ℚ) * (1 - cov)))

/-! ## PNG loading entry point and its caller's fallback
(`load_png_sprite` lines 240–259, `main` lines 474–478) -/

/-- Source `load_png_sprite(path, target_cells, bg_rgb, use_supersample,
supersample)`. The image decoding and resampling service (PIL) is external:
`decoded` is the outcome of `Image.open(path).convert("RGBA")` (`none` when
opening raised), and `resample im hr` stands for the LANCZOS
resize/crop/pad pipeline producing the `hr × hr` pixel grid. Returns `none`
when the service is unavailable, the source is unreadable, or the requested
cell dimension is non-positive. -/
def load_png_sprite {α : Type} (resample : α → ℕ → (ℕ → ℕ → RGBA))
    (pil_available : Bool) (decoded : Option α) (target_cells : ℤ) (bg_rgb : Color)
    (use_supersample : Bool) (supersample : ℤ) : Option (List (List (Option Color))) :=
  if pil_available = false then none
  else
    match decoded with
    | none => none
    | some im =>
      if target_cells ≤ 0 then none
      else
        let cells := target_cells.toNat
        let ss := (if use_supersample then max 1 supersample else 1).toNat
        let hr := cells * ss
        let px := resample im hr
        some ((List.range cells).map fun cy => (List.range cells).map fun cx =>
          png_cell px ss bg_rgb cy cx)

/-- The caller's fallback in `main`: when `load_png_sprite` produced no
sprite, the planet sprite comes from the procedural generator with the
palette colors `(200,120,80)` / `(120,60,30)` and `edge_width=0.28`. -/
noncomputable def planet_sprite_with_fallback (loaded : Option (List (List (Option Color))))
    (planet_radius_cells : ℕ) (smooth_level : ℤ) (bg_rgb : Color) :
    List (List (Option Color)) :=
  match loaded with
  | some ps => ps
  | none => generate_smooth_circle planet_radius_cells (200, 120, 80) (some (120, 60, 30))
      smooth_level (28 / 100 : ℝ) bg_rgb

/-- C7: the PNG sprite loader never produces a crash for its caller: if the
decoding service is unavailable (`PIL_AVAILABLE` false), or the source file
is unreadable/unsupported (decode failed), or the requested cell dimension
is non-positive, it returns "no sprite produced" (`none`); and whenever it
returns `none` the caller falls back to the procedural generator. -/
theorem load_png_sprite_error_handling {α : Type} (resample : α → ℕ → (ℕ → ℕ → RGBA))
    (pil_available : Bool) (decoded : Option α) (target_cells : ℤ) (bg_rgb : Color)
    (use_supersample : Bool) (supersample : ℤ) (radius : ℕ) (smooth_level : ℤ) :
    ((pil_available = false ∨ decoded = none ∨ target_cells ≤ 0) →
      load_png_sprite resample pil_available decoded target_cells bg_rgb
        use_supersample supersample = none)
    ∧ (load_png_sprite resample pil_available decoded target_cells bg_rgb
          use_supersample supersample = none →
        planet_sprite_with_fallback
          (load_png_sprite resample pil_available decoded target_cells bg_rgb
            use_supersample supersample) radius smooth_level bg_rgb
          = generate_smooth_circle radius (200, 120, 80) (some (120, 60, 30))
              smooth_level (28 / 100 : ℝ) bg_rgb) := by
  constructor
  · intro h
    unfold load_png_sprite
    rcases h with h | h | h
    · rw [h]; simp
    · rw [h]; cases pil_available <;> simp
    · cases decoded with
      | none => cases pil_available <;> simp
      | some im => cases pil_available <;> simp [h]
  · intro h
    rw [h]
    unfold planet_sprite_with_fallback
    rfl

/-- C7 witness: with the decoding service unavailable the loader reports
"no sprite produced" and the caller uses the procedural planet sprite. -/
theorem load_png_sprite_error_handling_witness :
    (false = false ∨ (none : Option Unit) = none ∨ (7 : ℤ) ≤ 0)
    ∧ load_png_sprite (fun (_ : Unit) _ _ _ => ((0, 0, 0, 0) : RGBA)) false none 7 (18, 8, 84)
        true 4 = none
    ∧ planet_sprite_with_fallback
        (load_png_sprite (fun (_ : Unit) _ _ _ => ((0, 0, 0, 0) : RGBA)) false none 7 (18, 8, 84)
          true 4) 3 4 (18, 8, 84)
        = generate_smooth_circle 3 (200, 120, 80) (some (120, 60, 30)) 4 (28 / 100 : ℝ)
            (18, 8, 84) := by
  have h := load_png_sprite_error_handling (fun (_ : Unit) _ _ _ => ((0, 0, 0, 0) : RGBA))
    false none 7 (18, 8, 84) true 4 3 4
  have h1 := h.1 (Or.inl rfl)
  exact ⟨Or.inl rfl, h1, h.2 h1⟩

/-! ## Geometry of the generated disc (claims about transparency) -/

theorem getD_map_range {α : Type} (f : ℕ → α) (n i : ℕ) (d : α) (h : i < n) :
    ((List.range n).map f).getD i d = f i := by
  rw [List.getD_eq_getElem?_getD]
  simp [List.getElem?_map, List.getElem?_range, h]

/-- Triangle inequality for the plane Euclidean norm, in coordinates. -/
theorem sqrt_add_sq_le (p1 p2 q1 q2 : ℝ) :
    Real.sqrt ((p1 + q1) ^ 2 + (p2 + q2) ^ 2)
      ≤ Real.sqrt (p1 ^ 2 + p2 ^ 2) + Real.sqrt (q1 ^ 2 + q2 ^ 2) := by
  have hP : (0 : ℝ) ≤ p1 ^ 2 + p2 ^ 2 := by positivity
  have hQ : (0 : ℝ) ≤ q1 ^ 2 + q2 ^ 2 := by positivity
  have hcs : p1 * q1 + p2 * q2 ≤ Real.sqrt ((p1 ^ 2 + p2 ^ 2) * (q1 ^ 2 + q2 ^ 2)) := by
    apply Real.le_sqrt_of_sq_le
    nlinarith [sq_nonneg (p1 * q2 - p2 * q1)]
  rw [Real.sqrt_mul hP] at hcs
  rw [Real.sqrt_le_iff]
  constructor
  · positivity
  · have ha := Real.sq_sqrt hP
    have hb := Real.sq_sqrt hQ
    nlinarith [hcs, ha, hb]

set_option maxHeartbeats 1000000 in
/-- A supersampled point of the block of cell `(cy, cx)` is farther than
`rad_hr + ss/4` from the supersampled center whenever the cell's own index
is farther than `r + 1/4 + √2/2` from the central cell index. -/
theorem hr_point_far (radius_cells : ℕ) (supersample : ℤ) (cy cx oy ox : ℕ)
    (hoy : oy < (max 1 supersample).toNat) (hox : ox < (max 1 supersample).toNat)
    (hfar : (radius_cells : ℝ) + 1 / 4 + Real.sqrt 2 / 2
        < Real.sqrt (((cy : ℝ) - radius_cells) ^ 2 + ((cx : ℝ) - radius_cells) ^ 2)) :
    (radius_cells : ℝ) * ((max 1 supersample).toNat : ℝ)
        + (1 / 4) * ((max 1 supersample).toNat : ℝ)
      < dist_hr radius_cells supersample (cy * (max 1 supersample).toNat + oy)
          (cx * (max 1 supersample).toNat + ox) := by
  set ssN := (max 1 supersample).toNat with hssN
  have hss1 : 1 ≤ ssN := by
    rw [hssN]
    have h := le_max_left (1 : ℤ) supersample
    omega
  set S : ℝ := (ssN : ℝ) with hS
  have hS1 : (1 : ℝ) ≤ S := by
    rw [hS]
    exact_mod_cast hss1
  have hS0 : (0 : ℝ) < S := by linarith
  set r : ℝ := (radius_cells : ℝ) with hr
  set a : ℝ := (cy : ℝ) - r with ha
  set b : ℝ := (cx : ℝ) - r with hb
  -- the supersampled coordinates of the sample and of the center
  set center : ℝ := ((((2 * radius_cells + 1) * ssN : ℕ) : ℝ) - 1) / 2 with hcenter
  set dy : ℝ := ((cy * ssN + oy : ℕ) : ℝ) - center with hdy
  set dx : ℝ := ((cx * ssN + ox : ℕ) : ℝ) - center with hdx
  have hcenter' : center = r * S + (S - 1) / 2 := by
    rw [hcenter, hS, hr]
    push_cast
    ring
  have hdyv : dy = S * a + ((oy : ℝ) - (S - 1) / 2) := by
    rw [hdy, ha, hcenter']
    push_cast
    ring
  have hdxv : dx = S * b + ((ox : ℝ) - (S - 1) / 2) := by
    rw [hdx, hb, hcenter']
    push_cast
    ring
  -- the sample offset from the cell-scaled index is at most (S-1)/2 per axis
  have hoyb : |(oy : ℝ) - (S - 1) / 2| ≤ (S - 1) / 2 := by
    rw [abs_le]
    have h2 : ((oy : ℝ) + 1) ≤ (ssN : ℝ) := by exact_mod_cast Nat.succ_le_of_lt hoy
    have h0 : (0 : ℝ) ≤ (oy : ℝ) := Nat.cast_nonneg _
    rw [← hS] at h2
    constructor <;> linarith
  have hoxb : |(ox : ℝ) - (S - 1) / 2| ≤ (S - 1) / 2 := by
    rw [abs_le]
    have h2 : ((ox : ℝ) + 1) ≤ (ssN : ℝ) := by exact_mod_cast Nat.succ_le_of_lt hox
    have h0 : (0 : ℝ) ≤ (ox : ℝ) := Nat.cast_nonneg _
    rw [← hS] at h2
    constructor <;> linarith
  -- triangle inequality: S·‖(b,a)‖ ≤ ‖(dx,dy)‖ + ‖offset‖
  have htri : Real.sqrt ((S * b) ^ 2 + (S * a) ^ 2)
      ≤ Real.sqrt (dx ^ 2 + dy ^ 2)
        + Real.sqrt (((ox : ℝ) - (S - 1) / 2) ^ 2 + ((oy : ℝ) - (S - 1) / 2) ^ 2) := by
    have h := sqrt_add_sq_le dx dy (S * b - dx) (S * a - dy)
    have hrw : (dx + (S * b - dx)) = S * b := by ring
    have hrw2 : (dy + (S * a - dy)) = S * a := by ring
    rw [hrw, hrw2] at h
    have hq : (S * b - dx) = -((ox : ℝ) - (S - 1) / 2) := by rw [hdxv]; ring
    have hq2 : (S * a - dy) = -((oy : ℝ) - (S - 1) / 2) := by rw [hdyv]; ring
    rw [hq, hq2, neg_sq, neg_sq] at h
    exact h
  -- the offset norm is at most √2·S/2
  have hsq2 : Real.sqrt 2 ^ 2 = 2 := Real.sq_sqrt (by norm_num)
  have hsq2nn : (0 : ℝ) ≤ Real.sqrt 2 := Real.sqrt_nonneg 2
  have hoff : Real.sqrt (((ox : ℝ) - (S - 1) / 2) ^ 2 + ((oy : ℝ) - (S - 1) / 2) ^ 2)
      ≤ Real.sqrt 2 * S / 2 := by
    rw [Real.sqrt_le_iff]
    refine ⟨by positivity, ?_⟩
    have h1 := abs_le.mp hoyb
    have h2 := abs_le.mp hoxb
    have hexp : (Real.sqrt 2 * S / 2) ^ 2 = Real.sqrt 2 ^ 2 * S ^ 2 / 4 := by ring
    rw [hexp, hsq2]
    have hb1 : ((oy : ℝ) - (S - 1) / 2) ^ 2 ≤ ((S - 1) / 2) ^ 2 := by nlinarith [h1.1, h1.2]
    have hb2 : ((ox : ℝ) - (S - 1) / 2) ^ 2 ≤ ((S - 1) / 2) ^ 2 := by nlinarith [h2.1, h2.2]
    have hS2 : ((S - 1) / 2) ^ 2 ≤ (S / 2) ^ 2 := by nlinarith
    nlinarith [hb1, hb2, hS2]
  -- scaling the cell-index distance by S
  have hscale : Real.sqrt ((S * b) ^ 2 + (S * a) ^ 2) = S * Real.sqrt (a ^ 2 + b ^ 2) := by
    have h1 : (S * b) ^ 2 + (S * a) ^ 2 = S ^ 2 * (a ^ 2 + b ^ 2) := by ring
    rw [h1, Real.sqrt_mul (by positivity), Real.sqrt_sq (le_of_lt hS0)]
  have hfar' : S * (r + 1 / 4 + Real.sqrt 2 / 2) < S * Real.sqrt (a ^ 2 + b ^ 2) :=
    mul_lt_mul_of_pos_left hfar hS0
  have hfe : S * (r + 1 / 4 + Real.sqrt 2 / 2) = r * S + 1 / 4 * S + Real.sqrt 2 * S / 2 := by
    ring
  rw [hfe] at hfar'
  -- identify the goal distance
  have hdist : dist_hr radius_cells supersample (cy * ssN + oy) (cx * ssN + ox)
      = Real.sqrt (dx ^ 2 + dy ^ 2) := by
    simp only [dist_hr]
  rw [hdist]
  linarith [htri, hoff, hscale, hfar']

theorem hr_point_color_none (color_rgb : Color) (edge_rgb : Option Color)
    (radius_cells : ℕ) (supersample : ℤ) (edge_width : ℝ) (cy cx oy ox : ℕ)
    (hoy : oy < (max 1 supersample).toNat) (hox : ox < (max 1 supersample).toNat)
    (hfar : (radius_cells : ℝ) + 1 / 4 + Real.sqrt 2 / 2
        < Real.sqrt (((cy : ℝ) - radius_cells) ^ 2 + ((cx : ℝ) - radius_cells) ^ 2)) :
    hr_point_color color_rgb edge_rgb radius_cells supersample edge_width
      (cy * (max 1 supersample).toNat + oy) (cx * (max 1 supersample).toNat + ox) = none := by
  have h := hr_point_far radius_cells supersample cy cx oy ox hoy hox hfar
  simp only [hr_point_color]
  rw [if_neg (not_le.mpr h)]

set_option maxHeartbeats 1000000 in
/-- C2 (amended): the procedural disc generator always returns a
`(2r+1) × (2r+1)` grid, and every cell whose `(row, col)` index lies at
Euclidean distance greater than `r + 1/4 + √2/2` from the center index
`(r, r)` is transparent. (The claim's bound `r + 1/4` is on the cell
index, but inclusion is tested per supersampled point, which can sit up to
`√2/2` cell units nearer the center than its cell's index point; the
corners at distance `r·√2` still satisfy the corrected bound for every
`r ≥ 3`, in particular the four corners of the default `r = 3` sprite are
transparent.) -/
theorem generate_smooth_circle_shape (radius_cells : ℕ) (color_rgb : Color)
    (edge_rgb : Option Color) (supersample : ℤ) (edge_width : ℝ) (bg_rgb : Color) :
    (generate_smooth_circle radius_cells color_rgb edge_rgb supersample edge_width
        bg_rgb).length = 2 * radius_cells + 1
    ∧ (∀ row ∈ generate_smooth_circle radius_cells color_rgb edge_rgb supersample edge_width
        bg_rgb, row.length = 2 * radius_cells + 1)
    ∧ (∀ cy cx : ℕ, cy < 2 * radius_cells + 1 → cx < 2 * radius_cells + 1 →
        (radius_cells : ℝ) + 1 / 4 + Real.sqrt 2 / 2
            < Real.sqrt (((cy : ℝ) - radius_cells) ^ 2 + ((cx : ℝ) - radius_cells) ^ 2) →
        ((generate_smooth_circle radius_cells color_rgb edge_rgb supersample edge_width
            bg_rgb).getD cy []).getD cx none = none) := by
  refine ⟨?_, ?_, ?_⟩
  · simp [generate_smooth_circle]
  · intro row hrow
    simp only [generate_smooth_circle, List.mem_map] at hrow
    obtain ⟨cy, _, hrow⟩ := hrow
    rw [← hrow]
    simp
  · intro cy cx hcy hcx hfar
    simp only [generate_smooth_circle]
    rw [getD_map_range _ _ _ _ hcy, getD_map_range _ _ _ _ hcx]
    have hnil : (((List.range ((max 1 supersample).toNat)).flatMap fun oy =>
        (List.range ((max 1 supersample).toNat)).map fun ox =>
          (cy * (max 1 supersample).toNat + oy,
           cx * (max 1 supersample).toNat + ox)).filterMap fun p =>
            hr_point_color color_rgb edge_rgb radius_cells supersample edge_width p.1 p.2)
        = [] := by
      rw [List.filterMap_eq_nil_iff]
      intro p hp
      simp only [List.mem_flatMap, List.mem_map, List.mem_range] at hp
      obtain ⟨oy, hoy, ox, hox, rfl⟩ := hp
      exact hr_point_color_none color_rgb edge_rgb radius_cells supersample edge_width
        cy cx oy ox hoy hox hfar
    rw [hnil]
    simp

set_option maxHeartbeats 1000000 in
/-- C2 witness: for the default planet parameters (`r = 3`, `S = 4`) the
corner cell `(0, 0)` lies beyond the corrected radius and is transparent,
and the sprite is a 7×7 grid. -/
theorem generate_smooth_circle_shape_witness :
    (((0 : ℕ) : ℕ) < 2 * 3 + 1
      ∧ ((3 : ℕ) : ℝ) + 1 / 4 + Real.sqrt 2 / 2
          < Real.sqrt ((((0 : ℕ) : ℝ) - ((3 : ℕ) : ℝ)) ^ 2
              + (((0 : ℕ) : ℝ) - ((3 : ℕ) : ℝ)) ^ 2))
    ∧ (generate_smooth_circle 3 (200, 120, 80) (some (120, 60, 30)) 4 (28 / 100)
        (18, 8, 84)).length = 2 * 3 + 1
    ∧ ((generate_smooth_circle 3 (200, 120, 80) (some (120, 60, 30)) 4 (28 / 100)
        (18, 8, 84)).getD 0 []).getD 0 none = none := by
  have hsq2 : Real.sqrt 2 < 3 / 2 := by
    rw [Real.sqrt_lt' (by norm_num)]
    norm_num
  have harg : (((0 : ℕ) : ℝ) - ((3 : ℕ) : ℝ)) ^ 2 + (((0 : ℕ) : ℝ) - ((3 : ℕ) : ℝ)) ^ 2
      = 18 := by norm_num
  have h18 : (4 : ℝ) < Real.sqrt 18 := by
    rw [Real.lt_sqrt (by norm_num)]
    norm_num
  have hfar : ((3 : ℕ) : ℝ) + 1 / 4 + Real.sqrt 2 / 2
      < Real.sqrt ((((0 : ℕ) : ℝ) - ((3 : ℕ) : ℝ)) ^ 2
          + (((0 : ℕ) : ℝ) - ((3 : ℕ) : ℝ)) ^ 2) := by
    rw [harg]
    push_cast
    linarith
  have H := generate_smooth_circle_shape 3 (200, 120, 80) (some (120, 60, 30)) 4 (28 / 100)
    (18, 8, 84)
  exact ⟨⟨by norm_num, hfar⟩, H.1, H.2.2 0 0 (by norm_num) (by norm_num) hfar⟩

set_option maxHeartbeats 1000000 in
/-- C2 counterexample: for `r = 3` with the default supersample factor
`S = 4`, the cell `(0, 1)` lies at index distance `√13 > 3.25` from the
center index yet is NOT transparent — its block contains the supersampled
point `(3, 7)` at distance `√152.5 ≤ 13` from the supersampled center, so
the cell receives a color. The claim "every cell at index distance greater
than `r + 0.25` is transparent" is therefore false as stated. -/
theorem generate_smooth_circle_radius_claim_cex :
    ((3 : ℝ) + 1 / 4 < Real.sqrt ((((0 : ℕ) : ℝ) - 3) ^ 2 + (((1 : ℕ) : ℝ) - 3) ^ 2))
    ∧ ((generate_smooth_circle 3 (200, 120, 80) (some (120, 60, 30)) 4 (28 / 100)
        (18, 8, 84)).getD 0 []).getD 1 none ≠ none := by
  constructor
  · have harg : (((0 : ℕ) : ℝ) - 3) ^ 2 + (((1 : ℕ) : ℝ) - 3) ^ 2 = 13 := by norm_num
    rw [harg, show ((3 : ℝ) + 1 / 4) = 13 / 4 by norm_num, Real.lt_sqrt (by norm_num)]
    norm_num
  · have hss : ((max 1 (4 : ℤ)).toNat) = 4 := by decide
    have hpoint : hr_point_color (200, 120, 80) (some (120, 60, 30)) 3 4 (28 / 100) 3 7
        ≠ none := by
      simp only [hr_point_color]
      rw [if_pos]
      · simp
      · have harg : ((7 : ℕ) : ℝ) = 7 := by norm_num
        simp only [dist_hr, hss]
        have harg2 : (((7 : ℕ) : ℝ) - ((((2 * 3 + 1) * 4 : ℕ) : ℝ) - 1) / 2) ^ 2
            + (((3 : ℕ) : ℝ) - ((((2 * 3 + 1) * 4 : ℕ) : ℝ) - 1) / 2) ^ 2 = 305 / 2 := by
          norm_num
        rw [harg2]
        have hb : Real.sqrt (305 / 2) ≤ 13 := by
          rw [Real.sqrt_le_iff]
          norm_num
        calc Real.sqrt (305 / 2) ≤ 13 := hb
          _ ≤ ((3 : ℕ) : ℝ) * (((max 1 (4 : ℤ)).toNat : ℕ) : ℝ)
              + 1 / 4 * (((max 1 (4 : ℤ)).toNat : ℕ) : ℝ) := by
            rw [hss]
            norm_num
    simp only [generate_smooth_circle]
    rw [getD_map_range _ _ _ _ (by norm_num : (0 : ℕ) < 2 * 3 + 1),
      getD_map_range _ _ _ _ (by norm_num : (1 : ℕ) < 2 * 3 + 1), hss]
    have hmem : ((3 : ℕ), (7 : ℕ)) ∈ ((List.range 4).flatMap fun oy =>
        (List.range 4).map fun ox => (0 * 4 + oy, 1 * 4 + ox)) := by
      simp only [List.mem_flatMap, List.mem_map, List.mem_range]
      exact ⟨3, by norm_num, 3, by norm_num, by norm_num⟩
    intro hcell
    by_cases hlen : (((List.range 4).flatMap fun oy => (List.range 4).map fun ox =>
        (0 * 4 + oy, 1 * 4 + ox)).filterMap fun p =>
          hr_point_color (200, 120, 80) (some (120, 60, 30)) 3 4 (28 / 100) p.1 p.2).length = 0
    · have hnil := List.length_eq_zero.mp hlen
      have hnone := List.filterMap_eq_nil_iff.mp hnil _ hmem
      exact hpoint hnone
    · rw [if_neg hlen] at hcell
      exact Option.some_ne_none _ hcell

/-! ## The edge band of the procedural generator (claim C5) -/

/-- The edge-interpolation parameter as claim C5 words it: `t = 0` except
within the outer band of thickness exactly `w·radius·S` (passed here as
`T`), over which `t` ramps linearly from 0 to 1 toward the boundary
`rad_hr`. This is the spec-side definition, to be compared with the
source's `t_edge`. -/
noncomputable def t_claim (rad_hr T dist : ℝ) : ℝ :=
  if dist ≤ rad_hr - T then 0 else min 1 ((dist - (rad_hr - T)) / T)

/-- The edge-interpolation ramp the source actually computes, rewritten
over the distance: zero at or below `rad_hr - T`, then a linear ramp with
slope `1 / (T + 1e-9)`, clamped to `[0, 1]`; here `T` is the source's
`edge_thickness_hr = max(1, w·radius·S)`. -/
noncomputable def t_amend (rad_hr T dist : ℝ) : ℝ :=
  max 0 (min 1 ((dist - (rad_hr - T)) / (T + epsR)))

theorem t_edge_eq_t_amend (R T d : ℝ) (hT1 : 1 ≤ T) (hTR : T ≤ R) (hRb : R ≤ 999999) :
    t_edge R T d = t_amend R T d := by
  have hR1 : (1 : ℝ) ≤ R := le_trans hT1 hTR
  unfold t_edge t_amend epsR eps6
  have hRe : (0 : ℝ) < R + 1 / 1000000000 := by linarith
  have hTe : (0 : ℝ) < T + 1 / 1000000000 := by linarith
  have hes : max 0 ((R - T) / (R + 1 / 1000000000)) = (R - T) / (R + 1 / 1000000000) := by
    apply max_eq_right
    apply div_nonneg <;> linarith
  rw [hes]
  have h1es : 1 - (R - T) / (R + 1 / 1000000000)
      = (T + 1 / 1000000000) / (R + 1 / 1000000000) := by
    field_simp
    ring
  by_cases hdn : (R - T) / (R + 1 / 1000000000) ≤ d / (R + 1 / 1000000000)
  · rw [if_pos hdn]
    have hguard : 1 / 1000000 < 1 - (R - T) / (R + 1 / 1000000000) := by
      rw [h1es, lt_div_iff₀ hRe]
      linarith
    rw [if_pos hguard]
    have heq : (d / (R + 1 / 1000000000) - (R - T) / (R + 1 / 1000000000))
        / (1 - (R - T) / (R + 1 / 1000000000))
        = (d - (R - T)) / (T + 1 / 1000000000) := by
      rw [h1es]
      field_simp
      ring
    rw [heq]
  · rw [if_neg hdn]
    push_neg at hdn
    have hd : d < R - T := by
      have := (div_lt_div_iff_of_pos_right hRe).mp hdn
      linarith
    have hq : (d - (R - T)) / (T + 1 / 1000000000) < 0 :=
      div_neg_of_neg_of_pos (by linarith) hTe
    rw [min_eq_right (le_of_lt (lt_of_lt_of_le hq (by norm_num))),
      max_eq_left (le_of_lt hq)]

set_option maxHeartbeats 1000000 in
/-- C5 (amended): the color of every included high-resolution point equals
`blend(base, edge, t)` where `t` is zero at or below distance
`rad_hr - T` and ramps linearly (slope `1/(T + 1e-9)`, clamped to `[0,1]`)
toward the boundary — with band thickness `T = max(1, w·radius·S)`, not
exactly `w·radius·S`: the source clamps the edge band to at least one
high-resolution pixel. (Stated for `0 ≤ w ≤ 1`, `radius ≥ 1` and
`radius·S ≤ 999999`, which keeps the source's `1e-6` degenerate-band guard
inactive.) -/
theorem hr_point_color_edge_band (color_rgb e : Color) (radius_cells : ℕ)
    (supersample : ℤ) (edge_width : ℝ) (hw0 : 0 ≤ edge_width) (hw1 : edge_width ≤ 1)
    (hr1 : 1 ≤ radius_cells) (hbig : radius_cells * (max 1 supersample).toNat ≤ 999999)
    (y x : ℕ) :
    hr_point_color color_rgb (some e) radius_cells supersample edge_width y x
      = if dist_hr radius_cells supersample y x
            ≤ (radius_cells : ℝ) * (((max 1 supersample).toNat : ℕ) : ℝ)
              + 1 / 4 * (((max 1 supersample).toNat : ℕ) : ℝ)
        then some (blend color_rgb e
            (t_amend ((radius_cells : ℝ) * (((max 1 supersample).toNat : ℕ) : ℝ))
              (max 1 (edge_width * ((radius_cells : ℝ)
                * (((max 1 supersample).toNat : ℕ) : ℝ))))
              (dist_hr radius_cells supersample y x)))
        else none := by
  set ssN := (max 1 supersample).toNat with hssN
  have hss1 : 1 ≤ ssN := by
    rw [hssN]
    have h := le_max_left (1 : ℤ) supersample
    omega
  have hS1 : (1 : ℝ) ≤ (ssN : ℝ) := by exact_mod_cast hss1
  have hr1R : (1 : ℝ) ≤ (radius_cells : ℝ) := by exact_mod_cast hr1
  have hR1 : (1 : ℝ) ≤ (radius_cells : ℝ) * (ssN : ℝ) := by nlinarith
  have hRb : (radius_cells : ℝ) * (ssN : ℝ) ≤ 999999 := by
    have h : ((radius_cells * ssN : ℕ) : ℝ) ≤ ((999999 : ℕ) : ℝ) := by exact_mod_cast hbig
    push_cast at h
    linarith
  have hT1 : (1 : ℝ) ≤ max 1 (edge_width * ((radius_cells : ℝ) * (ssN : ℝ))) :=
    le_max_left _ _
  have hTR : max 1 (edge_width * ((radius_cells : ℝ) * (ssN : ℝ)))
      ≤ (radius_cells : ℝ) * (ssN : ℝ) := by
    apply max_le hR1
    nlinarith
  simp only [hr_point_color, ← hssN]
  rw [t_edge_eq_t_amend _ _ _ hT1 hTR hRb]

/-- C5 witness: the amended band law at the concrete instance
`radius = 2`, `S = 1`, `w = 0.28`, point `(1, 1)`. -/
theorem hr_point_color_edge_band_witness :
    ((0 : ℝ) ≤ 28 / 100 ∧ (28 / 100 : ℝ) ≤ 1 ∧ 1 ≤ 2 ∧ 2 * (max 1 (1 : ℤ)).toNat ≤ 999999)
    ∧ hr_point_color (0, 0, 0) (some (255, 255, 255)) 2 1 (28 / 100) 1 1
      = (if dist_hr 2 1 1 1
            ≤ ((2 : ℕ) : ℝ) * (((max 1 (1 : ℤ)).toNat : ℕ) : ℝ)
              + 1 / 4 * (((max 1 (1 : ℤ)).toNat : ℕ) : ℝ)
        then some (blend (0, 0, 0) (255, 255, 255)
            (t_amend (((2 : ℕ) : ℝ) * (((max 1 (1 : ℤ)).toNat : ℕ) : ℝ))
              (max 1 ((28 / 100) * (((2 : ℕ) : ℝ) * (((max 1 (1 : ℤ)).toNat : ℕ) : ℝ))))
              (dist_hr 2 1 1 1)))
        else none) :=
  ⟨⟨by norm_num, by norm_num, by norm_num, by decide⟩,
    hr_point_color_edge_band (0, 0, 0) (255, 255, 255) 2 1 (28 / 100) (by norm_num)
      (by norm_num) (by norm_num) (by decide) 1 1⟩

theorem sqrt_two_bounds : (14142 / 10000 : ℝ) < Real.sqrt 2 ∧ Real.sqrt 2 < 14143 / 10000 := by
  constructor
  · rw [Real.lt_sqrt (by norm_num)]
    norm_num
  · rw [Real.sqrt_lt' (by norm_num)]
    norm_num

theorem dist_hr_cex_eval : dist_hr 2 1 1 1 = Real.sqrt 2 := by
  have hss1 : ((max 1 (1 : ℤ)).toNat) = 1 := by decide
  simp only [dist_hr, hss1]
  norm_num

theorem t_edge_cex_eval : t_edge 2 1 (Real.sqrt 2) = (Real.sqrt 2 - 1) / (1 + epsR) := by
  obtain ⟨hlo, hhi⟩ := sqrt_two_bounds
  have hs1 : (1 : ℝ) ≤ Real.sqrt 2 := by linarith
  simp only [t_edge, epsR, eps6]
  have hq0 : (0 : ℝ) < 2 + 1 / 1000000000 := by norm_num
  have hes : max (0 : ℝ) ((2 - 1) / (2 + 1 / 1000000000)) = 1 / (2 + 1 / 1000000000) := by
    rw [max_eq_right (by positivity)]
    norm_num
  rw [hes]
  rw [if_pos ((div_le_div_iff_of_pos_right hq0).mpr hs1)]
  rw [if_pos (by norm_num)]
  have hden : (1 : ℝ) - 1 / (2 + 1 / 1000000000)
      = (1 + 1 / 1000000000) / (2 + 1 / 1000000000) := by
    rw [eq_div_iff (ne_of_gt hq0)]
    ring
  have hv : (Real.sqrt 2 / (2 + 1 / 1000000000) - 1 / (2 + 1 / 1000000000))
      / (1 - 1 / (2 + 1 / 1000000000)) = (Real.sqrt 2 - 1) / (1 + 1 / 1000000000) := by
    rw [div_sub_div_same, hden, div_div_div_cancel_right₀ (ne_of_gt hq0)]
  rw [hv]
  rw [min_eq_right, max_eq_right]
  · apply div_nonneg (by linarith) (by norm_num)
  · rw [div_le_one (by norm_num)]
    linarith

theorem blend_cex_eval :
    blend (0, 0, 0) (255, 255, 255) ((Real.sqrt 2 - 1) / (1 + epsR)) = (105, 105, 105) := by
  obtain ⟨hlo, hhi⟩ := sqrt_two_bounds
  unfold blend clampR pyInt epsR
  have hval : 255 * ((Real.sqrt 2 - 1) / (1 + 1 / 1000000000))
      = (255 * (Real.sqrt 2 - 1)) / (1 + 1 / 1000000000) := by ring
  have h105 : (105 : ℝ) ≤ 255 * ((Real.sqrt 2 - 1) / (1 + 1 / 1000000000)) := by
    rw [hval, le_div_iff₀ (by norm_num)]
    linarith
  have h106 : 255 * ((Real.sqrt 2 - 1) / (1 + 1 / 1000000000)) < 106 := by
    rw [hval, div_lt_iff₀ (by norm_num)]
    linarith
  have hfloor : ⌊(255 : ℝ) * ((Real.sqrt 2 - 1) / (1 + 1 / 1000000000))⌋ = 105 := by
    rw [Int.floor_eq_iff]
    constructor
    · exact_mod_cast h105
    · push_cast
      linarith
  have hcomp : ∀ c1 c2 : ℤ, c1 = 0 → c2 = 255 →
      (max 0 (min 255 (if 0 ≤ (c1 : ℝ) * (1 - (Real.sqrt 2 - 1) / (1 + 1 / 1000000000))
            + (c2 : ℝ) * ((Real.sqrt 2 - 1) / (1 + 1 / 1000000000))
        then ⌊(c1 : ℝ) * (1 - (Real.sqrt 2 - 1) / (1 + 1 / 1000000000))
            + (c2 : ℝ) * ((Real.sqrt 2 - 1) / (1 + 1 / 1000000000))⌋
        else -⌊-((c1 : ℝ) * (1 - (Real.sqrt 2 - 1) / (1 + 1 / 1000000000))
            + (c2 : ℝ) * ((Real.sqrt 2 - 1) / (1 + 1 / 1000000000)))⌋))) = 105 := by
    intro c1 c2 h1 h2
    subst h1
    subst h2
    have harg : ((0 : ℤ) : ℝ) * (1 - (Real.sqrt 2 - 1) / (1 + 1 / 1000000000))
        + ((255 : ℤ) : ℝ) * ((Real.sqrt 2 - 1) / (1 + 1 / 1000000000))
        = 255 * ((Real.sqrt 2 - 1) / (1 + 1 / 1000000000)) := by
      push_cast
      ring
    rw [harg, if_pos (by linarith), hfloor]
    norm_num
  exact Prod.ext (hcomp 0 255 rfl rfl) (Prod.ext (hcomp 0 255 rfl rfl) (hcomp 0 255 rfl rfl))

set_option maxHeartbeats 1000000 in
/-- C5 counterexample: with `radius = 2`, `S = 1`, `w = 0.28`, base color
black and edge color white, the high-resolution point `(1, 1)` (at
distance `√2` from the center) is colored `(105, 105, 105)` by the source
— its `t` is about `0.414` because the effective band thickness is
`max(1, w·radius·S) = 1` — while the claim's band of thickness exactly
`w·radius·S = 0.56` gives `t = 0` there, i.e. the base color `(0, 0, 0)`. -/
theorem hr_point_color_edge_band_cex :
    hr_point_color (0, 0, 0) (some (255, 255, 255)) 2 1 (28 / 100) 1 1
        = some (105, 105, 105)
    ∧ blend (0, 0, 0) (255, 255, 255)
        (t_claim (((2 : ℕ) : ℝ) * 1) ((28 / 100) * (((2 : ℕ) : ℝ) * 1)) (dist_hr 2 1 1 1))
        = (0, 0, 0)
    ∧ ((105, 105, 105) : Color) ≠ ((0, 0, 0) : Color) := by
  obtain ⟨hlo, hhi⟩ := sqrt_two_bounds
  have hss1 : ((max 1 (1 : ℤ)).toNat) = 1 := by decide
  refine ⟨?_, ?_, by decide⟩
  · simp only [hr_point_color, hss1, dist_hr_cex_eval]
    rw [if_pos]
    · rw [show ((2 : ℕ) : ℝ) * ((1 : ℕ) : ℝ) = 2 from by norm_num,
        show max (1 : ℝ) (28 / 100 * 2) = 1 from by rw [max_eq_left]; norm_num,
        t_edge_cex_eval, blend_cex_eval]
    · push_cast
      linarith
  · have htc : t_claim (((2 : ℕ) : ℝ) * 1) ((28 / 100) * (((2 : ℕ) : ℝ) * 1))
        (dist_hr 2 1 1 1) = 0 := by
      rw [dist_hr_cex_eval]
      unfold t_claim
      rw [if_pos]
      push_cast
      linarith
    rw [htc]
    unfold blend clampR pyInt
    norm_num

/-! ## Canvas and compositor (`place_sprite_on_canvas` lines 387–399,
frame build in `main` lines 571–618) -/

theorem getD_set_self {α : Type} (l : List α) (i : ℕ) (v d : α) (h : i < l.length) :
    (l.set i v).getD i d = v := by
  rw [List.getD_eq_getElem?_getD, List.getElem?_set_self (by simpa using h)]
  rfl

theorem getD_set_ne {α : Type} (l : List α) (i j : ℕ) (v d : α) (h : i ≠ j) :
    (l.set i v).getD j d = l.getD j d := by
  rw [List.getD_eq_getElem?_getD, List.getD_eq_getElem?_getD, List.getElem?_set_ne h]

theorem set_getD_self {α : Type} (l : List α) (i : ℕ) (d : α) (h : i < l.length) :
    l.set i (l.getD i d) = l := by
  apply List.ext_getElem?
  intro j
  by_cases hij : i = j
  · subst hij
    rw [List.getElem?_set_self (by simpa using h), List.getD_eq_getElem?_getD,
      List.getElem?_eq_getElem h]
    rfl
  · rw [List.getElem?_set_ne hij]

theorem getD_replicate {α : Type} (n i : ℕ) (a d : α) (h : i < n) :
    (List.replicate n a).getD i d = a := by
  rw [List.getD_eq_getElem?_getD, List.getElem?_replicate, if_pos h]
  rfl

theorem headD_eq_getD_zero {α : Type} (l : List α) (d : α) : l.headD d = l.getD 0 d := by
  cases l <;> rfl

/-- The truecolor background cell `bg_color_block_true(r, g, b)`:
`\x1b[48;2;R;G;Bm \x1b[0m`. -/
def bg_color_block_true (r g b : ℤ) : String :=
  "\x1b[48;2;" ++ toString r ++ ";" ++ toString g ++ ";" ++ toString b ++ "m \x1b[0m"

/-- The truecolor foreground-on-background cell
`fg_on_bg_char_true(fg, bg, ch)`. -/
def fg_on_bg_char_true (fg bg : Color) (ch : Char) : String :=
  "\x1b[48;2;" ++ toString bg.1 ++ ";" ++ toString bg.2.1 ++ ";" ++ toString bg.2.2
    ++ "m\x1b[38;2;" ++ toString fg.1 ++ ";" ++ toString fg.2.1 ++ ";" ++ toString fg.2.2
    ++ "m" ++ ch.toString ++ "\x1b[0m"

/-- The cell encoder applied to a sprite pixel by the blitter
(`canvas[cy][cx] = bg_color_block(r, g, b)`), in truecolor mode. -/
def encCell (c : Color) : String := bg_color_block_true c.1 c.2.1 c.2.2

/-- Source `place_sprite_on_canvas(canvas, sprite, top, left)`: for each sprite
cell with a defined color whose mapped canvas coordinate is in bounds,
overwrite that canvas cell with the encoded color; transparent cells and
out-of-bounds coordinates are skipped. `enc` stands for the module-level,
mode-selected `bg_color_block`. -/
def place_sprite_on_canvas (enc : Color → String) (canvas : List (List String))
    (sprite : List (List (Option Color))) (top left : ℤ) : List (List String) :=
  let h := sprite.length
  let w := (sprite.headD []).length
  let sh := canvas.length
  let sw := (canvas.headD []).length
  (List.range h).foldl (fun cv (sy : ℕ) =>
    let cy := top + (sy : ℤ)
    if cy < 0 ∨ (sh : ℤ) ≤ cy then cv
    else (List.range w).foldl (fun cv2 (sx : ℕ) =>
      let cx := left + (sx : ℤ)
      if cx < 0 ∨ (sw : ℤ) ≤ cx then cv2
      else match (sprite.getD sy []).getD sx none with
        | none => cv2
        | some p => cv2.set cy.toNat ((cv2.getD cy.toNat []).set cx.toNat (enc p))) cv) canvas

/-- The row-level effect of the blitter's inner column loop. -/
def blit_row_step (enc : Color → String) (sprow : List (Option Color)) (left : ℤ)
    (sw : ℕ) : List String → ℕ → List String :=
  fun row sx =>
    let cx := left + (sx : ℤ)
    if cx < 0 ∨ (sw : ℤ) ≤ cx then row
    else match sprow.getD sx none with
      | none => row
      | some p => row.set cx.toNat (enc p)

/-- A whole row pass of the blitter. -/
def blit_row (enc : Color → String) (sprow : List (Option Color)) (left : ℤ)
    (sw : ℕ) (w : ℕ) (row : List String) : List String :=
  (List.range w).foldl (blit_row_step enc sprow left sw) row

/-- The pixel that the blitter writes at canvas cell `(i, j)`, if any:
the sprite cell mapped there when `(i, j)` is inside the sprite's
footprint and that cell is defined. -/
def blit_px (sprite : List (List (Option Color))) (top left : ℤ) (i j : ℕ) : Option Color :=
  if top ≤ (i : ℤ) ∧ (i : ℤ) < top + sprite.length
      ∧ left ≤ (j : ℤ) ∧ (j : ℤ) < left + (sprite.headD []).length then
    (sprite.getD ((i : ℤ) - top).toNat []).getD ((j : ℤ) - left).toNat none
  else none

theorem blit_row_length (enc : Color → String) (sprow : List (Option Color)) (left : ℤ)
    (sw : ℕ) (w : ℕ) : ∀ row : List String,
    (blit_row enc sprow left sw w row).length = row.length := by
  induction w with
  | zero => intro row; rfl
  | succ n ih =>
    intro row
    unfold blit_row at ih ⊢
    rw [List.range_succ, List.foldl_append, List.foldl_cons, List.foldl_nil]
    set F := (List.range n).foldl (blit_row_step enc sprow left sw) row with hF
    unfold blit_row_step
    dsimp only
    split
    · exact ih row
    · cases hpx : sprow.getD n none with
      | none => dsimp only; exact ih row
      | some p => dsimp only; rw [List.length_set]; exact ih row

theorem blit_row_getD (enc : Color → String) (sprow : List (Option Color)) (left : ℤ)
    (sw : ℕ) (w : ℕ) : ∀ (row : List String) (j : ℕ), row.length = sw →
    (blit_row enc sprow left sw w row).getD j ""
      = (if left ≤ (j : ℤ) ∧ (j : ℤ) < left + (w : ℤ) ∧ j < sw
          then sprow.getD ((j : ℤ) - left).toNat none else none).elim (row.getD j "") enc := by
  induction w with
  | zero =>
    intro row j hrow
    rw [if_neg (by omega)]
    rfl
  | succ n ih =>
    intro row j hrow
    unfold blit_row at ih ⊢
    rw [List.range_succ, List.foldl_append, List.foldl_cons, List.foldl_nil]
    set F := (List.range n).foldl (blit_row_step enc sprow left sw) row with hF
    have hlen : F.length = row.length := blit_row_length enc sprow left sw n row
    have ihF : F.getD j ""
        = (if left ≤ (j : ℤ) ∧ (j : ℤ) < left + (n : ℤ) ∧ j < sw
            then sprow.getD ((j : ℤ) - left).toNat none else none).elim (row.getD j "") enc :=
      ih row j hrow
    unfold blit_row_step
    dsimp only
    by_cases hb : left + (n : ℤ) < 0 ∨ (sw : ℤ) ≤ left + (n : ℤ)
    · rw [if_pos hb, ihF]
      by_cases hj : (j : ℤ) = left + (n : ℤ)
      · rw [if_neg (by omega), if_neg (by omega)]
      · rw [if_congr (show (left ≤ (j : ℤ) ∧ (j : ℤ) < left + ((n + 1 : ℕ) : ℤ) ∧ j < sw)
            ↔ (left ≤ (j : ℤ) ∧ (j : ℤ) < left + ((n : ℕ) : ℤ) ∧ j < sw) from by
              push_cast
              omega) rfl rfl]
    · rw [if_neg hb]
      push_neg at hb
      obtain ⟨hb1, hb2⟩ := hb
      cases hpx : sprow.getD n none with
      | none =>
        dsimp only
        rw [ihF]
        by_cases hj : (j : ℤ) = left + (n : ℤ)
        · have h1 : ((j : ℤ) - left).toNat = n := by omega
          rw [h1, hpx]
          simp only [ite_self]
        · rw [if_congr (show (left ≤ (j : ℤ) ∧ (j : ℤ) < left + ((n + 1 : ℕ) : ℤ) ∧ j < sw)
              ↔ (left ≤ (j : ℤ) ∧ (j : ℤ) < left + ((n : ℕ) : ℤ) ∧ j < sw) from by
                push_cast
                omega) rfl rfl]
      | some p =>
        dsimp only
        by_cases hj : (j : ℤ) = left + (n : ℤ)
        · have hjn : (left + (n : ℤ)).toNat = j := by omega
          have hjsw : j < sw := by omega
          have h1 : ((j : ℤ) - left).toNat = n := by omega
          rw [hjn, getD_set_self _ _ _ _ (by rw [hlen, hrow]; exact hjsw)]
          rw [if_pos ⟨by omega, by push_cast; omega, hjsw⟩, h1, hpx]
          rfl
        · rw [getD_set_ne _ _ _ _ _ (by omega), ihF]
          rw [if_congr (show (left ≤ (j : ℤ) ∧ (j : ℤ) < left + ((n + 1 : ℕ) : ℤ) ∧ j < sw)
              ↔ (left ≤ (j : ℤ) ∧ (j : ℤ) < left + ((n : ℕ) : ℤ) ∧ j < sw) from by
                push_cast
                omega) rfl rfl]

theorem place_inner_collapse (enc : Color → String) (sprite : List (List (Option Color)))
    (sy : ℕ) (left : ℤ) (sw : ℕ) (k : ℕ) (w : ℕ) :
    ∀ (cv : List (List String)), k < cv.length →
    (List.range w).foldl (fun cv2 (sx : ℕ) =>
        if left + (sx : ℤ) < 0 ∨ (sw : ℤ) ≤ left + (sx : ℤ) then cv2
        else match (sprite.getD sy []).getD sx none with
          | none => cv2
          | some p => cv2.set k ((cv2.getD k []).set (left + (sx : ℤ)).toNat (enc p))) cv
      = cv.set k (blit_row enc (sprite.getD sy []) left sw w (cv.getD k [])) := by
  induction w with
  | zero =>
    intro cv h
    simp only [List.range_zero, List.foldl_nil, blit_row]
    exact (set_getD_self _ _ _ h).symm
  | succ n ih =>
    intro cv h
    rw [List.range_succ, List.foldl_append, List.foldl_cons, List.foldl_nil, ih cv h]
    have hrhs : blit_row enc (sprite.getD sy []) left sw (n + 1) (cv.getD k [])
        = blit_row_step enc (sprite.getD sy []) left sw
            (blit_row enc (sprite.getD sy []) left sw n (cv.getD k [])) n := by
      unfold blit_row
      rw [List.range_succ, List.foldl_append, List.foldl_cons, List.foldl_nil]
    rw [hrhs]
    set R := blit_row enc (sprite.getD sy []) left sw n (cv.getD k []) with hR
    unfold blit_row_step
    dsimp only
    by_cases hb : left + (n : ℤ) < 0 ∨ (sw : ℤ) ≤ left + (n : ℤ)
    · rw [if_pos hb, if_pos hb]
    · rw [if_neg hb, if_neg hb]
      cases hpx : (sprite.getD sy []).getD n none with
      | none => dsimp only
      | some p =>
        dsimp only
        rw [getD_set_self _ _ _ _ h, List.set_set]

/-- The per-row step of the blitter's outer loop, with the canvas bounds
`sh`, `sw` and the sprite width `w` captured before the loops (as the
source computes them once up front). -/
def place_outer_step (enc : Color → String) (sprite : List (List (Option Color)))
    (top left : ℤ) (sh sw w : ℕ) : List (List String) → ℕ → List (List String) :=
  fun cv sy =>
    if top + (sy : ℤ) < 0 ∨ (sh : ℤ) ≤ top + (sy : ℤ) then cv
    else (List.range w).foldl (fun cv2 (sx : ℕ) =>
      if left + (sx : ℤ) < 0 ∨ (sw : ℤ) ≤ left + (sx : ℤ) then cv2
      else match (sprite.getD sy []).getD sx none with
        | none => cv2
        | some p => cv2.set (top + (sy : ℤ)).toNat
            ((cv2.getD (top + (sy : ℤ)).toNat []).set (left + (sx : ℤ)).toNat (enc p))) cv

theorem place_sprite_as_fold (enc : Color → String) (canvas : List (List String))
    (sprite : List (List (Option Color))) (top left : ℤ) :
    place_sprite_on_canvas enc canvas sprite top left
      = (List.range sprite.length).foldl
          (place_outer_step enc sprite top left canvas.length (canvas.headD []).length
            (sprite.headD []).length) canvas := rfl

theorem place_outer_char (enc : Color → String) (sprite : List (List (Option Color)))
    (top left : ℤ) (sh sw w : ℕ) (n : ℕ) :
    ∀ cv : List (List String), cv.length = sh →
      ((List.range n).foldl (place_outer_step enc sprite top left sh sw w) cv).length = sh
      ∧ ∀ i, i < sh →
          ((List.range n).foldl (place_outer_step enc sprite top left sh sw w) cv).getD i []
            = if top ≤ (i : ℤ) ∧ (i : ℤ) < top + (n : ℤ) then
                blit_row enc (sprite.getD ((i : ℤ) - top).toNat []) left sw w (cv.getD i [])
              else cv.getD i [] := by
  induction n with
  | zero =>
    intro cv hcv
    refine ⟨hcv, fun i hi => ?_⟩
    rw [if_neg (by omega)]
    rfl
  | succ n ih =>
    intro cv hcv
    obtain ⟨hlen, hrows⟩ := ih cv hcv
    rw [List.range_succ, List.foldl_append, List.foldl_cons, List.foldl_nil]
    set Fn := (List.range n).foldl (place_outer_step enc sprite top left sh sw w) cv with hFn
    unfold place_outer_step
    by_cases hg : top + (n : ℤ) < 0 ∨ (sh : ℤ) ≤ top + (n : ℤ)
    · rw [if_pos hg]
      refine ⟨hlen, fun i hi => ?_⟩
      rw [hrows i hi]
      have hisZ : (i : ℤ) < (sh : ℤ) := by exact_mod_cast hi
      by_cases hj : (i : ℤ) = top + (n : ℤ)
      · exfalso
        omega
      · rw [if_congr (show (top ≤ (i : ℤ) ∧ (i : ℤ) < top + ((n + 1 : ℕ) : ℤ))
            ↔ (top ≤ (i : ℤ) ∧ (i : ℤ) < top + ((n : ℕ) : ℤ)) from by push_cast; omega) rfl rfl]
    · rw [if_neg hg]
      have hk : (top + (n : ℤ)).toNat < Fn.length := by
        rw [hlen]
        omega
      rw [place_inner_collapse enc sprite n left sw ((top + (n : ℤ)).toNat) w Fn hk]
      constructor
      · rw [List.length_set, hlen]
      · intro i hi
        by_cases hik : i = (top + (n : ℤ)).toNat
        · subst hik
          rw [getD_set_self _ _ _ _ hk]
          rw [hrows _ hi]
          rw [if_neg (by omega)]
          rw [if_pos (by constructor <;> omega)]
          have hrowidx : ((((top + (n : ℤ)).toNat : ℕ) : ℤ) - top).toNat = n := by omega
          rw [hrowidx]
        · rw [getD_set_ne _ _ _ _ _ (fun hcon => hik hcon.symm)]
          rw [hrows i hi]
          by_cases hj : (i : ℤ) = top + (n : ℤ)
          · exfalso
            omega
          · rw [if_congr (show (top ≤ (i : ℤ) ∧ (i : ℤ) < top + ((n + 1 : ℕ) : ℤ))
              ↔ (top ≤ (i : ℤ) ∧ (i : ℤ) < top + ((n : ℕ) : ℤ)) from by push_cast; omega) rfl rfl]

theorem place_sprite_length (enc : Color → String) (canvas : List (List String))
    (sprite : List (List (Option Color))) (top left : ℤ) :
    (place_sprite_on_canvas enc canvas sprite top left).length = canvas.length := by
  rw [place_sprite_as_fold]
  exact (place_outer_char enc sprite top left canvas.length (canvas.headD []).length
    (sprite.headD []).length sprite.length canvas rfl).1

theorem place_sprite_row (enc : Color → String) (canvas : List (List String))
    (sprite : List (List (Option Color))) (top left : ℤ) (i : ℕ) (hi : i < canvas.length) :
    (place_sprite_on_canvas enc canvas sprite top left).getD i []
      = if top ≤ (i : ℤ) ∧ (i : ℤ) < top + (sprite.length : ℤ) then
          blit_row enc (sprite.getD ((i : ℤ) - top).toNat []) left (canvas.headD []).length
            (sprite.headD []).length (canvas.getD i [])
        else canvas.getD i [] := by
  rw [place_sprite_as_fold]
  exact (place_outer_char enc sprite top left canvas.length (canvas.headD []).length
    (sprite.headD []).length sprite.length canvas rfl).2 i hi

theorem place_sprite_row_length (enc : Color → String) (canvas : List (List String))
    (sprite : List (List (Option Color))) (top left : ℤ) (i : ℕ) :
    ((place_sprite_on_canvas enc canvas sprite top left).getD i []).length
      = (canvas.getD i []).length := by
  by_cases hi : i < canvas.length
  · rw [place_sprite_row enc canvas sprite top left i hi]
    split
    · exact blit_row_length _ _ _ _ _ _
    · rfl
  · push_neg at hi
    rw [List.getD_eq_default _ _ (by rw [place_sprite_length]; exact hi),
      List.getD_eq_default _ _ hi]

theorem place_sprite_cell (enc : Color → String) (canvas : List (List String))
    (sprite : List (List (Option Color))) (top left : ℤ) (i j : ℕ)
    (hi : i < canvas.length)
    (hrl : (canvas.getD i []).length = (canvas.headD []).length)
    (hj : j < (canvas.headD []).length) :
    ((place_sprite_on_canvas enc canvas sprite top left).getD i []).getD j ""
      = (blit_px sprite top left i j).elim ((canvas.getD i []).getD j "") enc := by
  rw [place_sprite_row enc canvas sprite top left i hi]
  by_cases hrange : top ≤ (i : ℤ) ∧ (i : ℤ) < top + (sprite.length : ℤ)
  · rw [if_pos hrange, blit_row_getD _ _ _ _ _ _ _ hrl]
    unfold blit_px
    by_cases hcol : left ≤ (j : ℤ) ∧ (j : ℤ) < left + ((sprite.headD []).length : ℤ)
    · rw [if_pos ⟨hcol.1, hcol.2, hj⟩, if_pos ⟨hrange.1, hrange.2, hcol.1, hcol.2⟩]
    · rw [if_neg (fun hc => hcol ⟨hc.1, hc.2.1⟩), if_neg (fun hc => hcol ⟨hc.2.2.1, hc.2.2.2⟩)]
  · rw [if_neg hrange]
    unfold blit_px
    rw [if_neg (fun hc => hrange ⟨hc.1, hc.2.1⟩)]
    rfl

/-- C9: blitting a sprite overwrites exactly the canvas cells that
correspond to a defined (non-transparent) sprite cell whose mapped
coordinate is in bounds — each such cell becomes the encoded sprite color
with no blending against the previous content — and leaves every other
cell and the canvas dimensions unchanged. `blit_px` is `some p` exactly on
the defined, in-footprint cells. -/
theorem place_sprite_blit_semantics (enc : Color → String) (canvas : List (List String))
    (sprite : List (List (Option Color))) (top left : ℤ)
    (hsq : ∀ row ∈ sprite, row.length = (sprite.headD []).length)
    (hcq : ∀ row ∈ canvas, row.length = (canvas.headD []).length) :
    (place_sprite_on_canvas enc canvas sprite top left).length = canvas.length
    ∧ (∀ i, ((place_sprite_on_canvas enc canvas sprite top left).getD i []).length
        = (canvas.getD i []).length)
    ∧ ∀ i j, i < canvas.length → j < (canvas.headD []).length →
        ((place_sprite_on_canvas enc canvas sprite top left).getD i []).getD j ""
          = (blit_px sprite top left i j).elim ((canvas.getD i []).getD j "") enc := by
  refine ⟨place_sprite_length enc canvas sprite top left,
    place_sprite_row_length enc canvas sprite top left, fun i j hi hj => ?_⟩
  have hrl : (canvas.getD i []).length = (canvas.headD []).length := by
    apply hcq
    rw [List.getD_eq_getElem?_getD, List.getElem?_eq_getElem hi]
    exact List.getElem_mem hi
  exact place_sprite_cell enc canvas sprite top left i j hi hrl hj

/-- C9 witness: a 1×1 sprite blitted at `(0, 1)` onto a 1×2 canvas
overwrites exactly the cell under its defined pixel. -/
theorem place_sprite_blit_semantics_witness :
    (∀ row ∈ [[some ((1, 2, 3) : Color)]], row.length = 1)
    ∧ (place_sprite_on_canvas encCell [["a", "b"]] [[some ((1, 2, 3) : Color)]] 0 1).length
        = 1
    ∧ ((place_sprite_on_canvas encCell [["a", "b"]] [[some ((1, 2, 3) : Color)]] 0 1).getD
        0 []).getD 1 ""
        = (blit_px [[some ((1, 2, 3) : Color)]] 0 1 0 1).elim (([["a", "b"]].getD 0 []).getD 1 "")
            encCell := by
  have H := place_sprite_blit_semantics encCell [["a", "b"]] [[some ((1, 2, 3) : Color)]] 0 1
    (by intro row hrow; simp at hrow; rw [hrow]; rfl)
    (by intro row hrow; simp at hrow; rw [hrow]; rfl)
  exact ⟨by intro row hrow; simp at hrow; rw [hrow]; rfl, H.1,
    H.2.2 0 1 (by norm_num) (by norm_num)⟩

theorem write_row_length (v : ℕ → String) (m : ℕ) :
    ∀ row : List String,
      ((List.range m).foldl (fun row i => row.set i (v i)) row).length = row.length := by
  induction m with
  | zero => intro row; rfl
  | succ n ih =>
    intro row
    rw [List.range_succ, List.foldl_append, List.foldl_cons, List.foldl_nil, List.length_set]
    exact ih row

theorem write_row_getD (v : ℕ → String) (m : ℕ) (j : ℕ) :
    ∀ row : List String,
      ((List.range m).foldl (fun row i => row.set i (v i)) row).getD j ""
        = if j < m ∧ j < row.length then v j else row.getD j "" := by
  induction m with
  | zero =>
    intro row
    rw [if_neg (by omega)]
    rfl
  | succ n ih =>
    intro row
    rw [List.range_succ, List.foldl_append, List.foldl_cons, List.foldl_nil]
    have hlen := write_row_length v n row
    by_cases hj : j = n
    · subst hj
      by_cases hb : j < row.length
      · rw [getD_set_self _ _ _ _ (by rw [hlen]; exact hb), if_pos ⟨by omega, hb⟩]
      · rw [List.set_eq_of_length_le (by rw [hlen]; omega), ih row,
          if_neg (by omega), if_neg (by omega)]
    · rw [getD_set_ne _ _ _ _ _ (fun hc => hj hc.symm), ih row,
        if_congr (show (j < n + 1 ∧ j < row.length) ↔ (j < n ∧ j < row.length) from by omega)
          rfl rfl]

theorem setrow_collapse (k : ℕ) (v : ℕ → String) (m : ℕ) :
    ∀ cv : List (List String), k < cv.length →
    (List.range m).foldl (fun cv2 i => cv2.set k ((cv2.getD k []).set i (v i))) cv
      = cv.set k ((List.range m).foldl (fun row i => row.set i (v i)) (cv.getD k [])) := by
  induction m with
  | zero =>
    intro cv h
    simp only [List.range_zero, List.foldl_nil]
    exact (set_getD_self _ _ _ h).symm
  | succ n ih =>
    intro cv h
    rw [List.range_succ, List.foldl_append, List.foldl_cons, List.foldl_nil, ih cv h,
      List.foldl_append, List.foldl_cons, List.foldl_nil]
    rw [getD_set_self _ _ _ _ h, List.set_set]

theorem hud_outer_char (v : ℕ → ℕ → String) (mlen : ℕ → ℕ) (L : ℕ) :
    ∀ cv : List (List String), (∀ hi, hi < L → hi < cv.length) →
      ((List.range L).foldl (fun cv hi => (List.range (mlen hi)).foldl
          (fun cv2 ci => cv2.set hi ((cv2.getD hi []).set ci (v hi ci))) cv) cv).length
          = cv.length
      ∧ ∀ i, ((List.range L).foldl (fun cv hi => (List.range (mlen hi)).foldl
            (fun cv2 ci => cv2.set hi ((cv2.getD hi []).set ci (v hi ci))) cv) cv).getD i []
          = if i < L then
              (List.range (mlen i)).foldl (fun row ci => row.set ci (v i ci)) (cv.getD i [])
            else cv.getD i [] := by
  induction L with
  | zero =>
    intro cv hb
    refine ⟨rfl, fun i => ?_⟩
    rw [if_neg (by omega)]
    rfl
  | succ n ih =>
    intro cv hb
    obtain ⟨hlen, hrows⟩ := ih cv (fun hi h => hb hi (by omega))
    rw [List.range_succ, List.foldl_append, List.foldl_cons, List.foldl_nil]
    set Fn := (List.range n).foldl (fun cv hi => (List.range (mlen hi)).foldl
      (fun cv2 ci => cv2.set hi ((cv2.getD hi []).set ci (v hi ci))) cv) cv with hFn
    have hkn : n < Fn.length := by
      rw [hlen]
      exact hb n (by omega)
    rw [setrow_collapse n (v n) (mlen n) Fn hkn]
    constructor
    · rw [List.length_set, hlen]
    · intro i
      by_cases hik : i = n
      · subst hik
        rw [getD_set_self _ _ _ _ hkn, hrows i, if_neg (by omega), if_pos (by omega)]
      · rw [getD_set_ne _ _ _ _ _ (fun hc => hik hc.symm), hrows i,
          if_congr (show (i < n + 1) ↔ (i < n) from by omega) rfl rfl]

/-- The per-frame canvas fill: `[[bg_cell for _ in range(sw)] for _ in
range(sh)]`. -/
def build_canvas (sh sw : ℕ) (cell : String) : List (List String) :=
  List.replicate sh (List.replicate sw cell)

/-- The control-hint text of `main`:
`"W A S D: THRUST | Q: QUIT | I: TOGGLE HUD"`. -/
def controls_text : List Char := "W A S D: THRUST | Q: QUIT | I: TOGGLE HUD".toList

/-- Constant `controls_fg = (245, 245, 245)`. -/
def controls_fg : Color := (245, 245, 245)

/-- Constant `hud_fg = (245, 245, 245)`. -/
def hud_fg : Color := (245, 245, 245)

/-- The truncation `controls = controls[:sw] if len(controls) >= sw`. -/
def truncated_controls (controls : List Char) (sw : ℕ) : List Char :=
  if sw ≤ controls.length then controls.take sw else controls

/-- The control-hint pass of `main`: write the (possibly truncated)
control text into the bottom canvas row, `canvas[-1][i] =
fg_on_bg_char(controls_fg, bg_rgb, ch)`. -/
def draw_controls (canvas : List (List String)) (controls : List Char) (fg bg : Color) :
    List (List String) :=
  let sh := canvas.length
  let sw := (canvas.headD []).length
  let cs := truncated_controls controls sw
  (List.range cs.length).foldl (fun cv i =>
    cv.set (sh - 1) ((cv.getD (sh - 1) []).set i (fg_on_bg_char_true fg bg (cs.getD i ' ')))) canvas

/-- The HUD pass of `main`: write up to `sh - 2` diagnostic lines,
truncated to the canvas width. The source exits its loops with `break`
once `hi >= sh-2` or `ci >= sw`; since both cursors only grow, the breaks
are equivalent to the truncated ranges used here. -/
def draw_hud (canvas : List (List String)) (hud_lines : List (List Char)) (fg bg : Color) :
    List (List String) :=
  let sh := canvas.length
  let sw := (canvas.headD []).length
  (List.range (min hud_lines.length (sh - 2))).foldl (fun cv hi =>
    (List.range (min ((hud_lines.getD hi []).length) sw)).foldl (fun cv2 ci =>
      cv2.set hi ((cv2.getD hi []).set ci
        (fg_on_bg_char_true fg bg ((hud_lines.getD hi []).getD ci ' ')))) cv) canvas

/-- The canvas-building section of `main` (lines 571–618): background
fill, then the control hint, then the planet sprite, then the satellite
sprite, and finally, when `debug` is set, the HUD overlay. -/
def compose_frame (sh sw : ℕ) (bg : Color) (planet sat : List (List (Option Color)))
    (ptop pleft stop sleft : ℤ) (debug : Bool) (hud_lines : List (List Char)) :
    List (List String) :=
  let canvas := build_canvas sh sw (bg_color_block_true bg.1 bg.2.1 bg.2.2)
  let canvas := draw_controls canvas controls_text controls_fg bg
  let canvas := place_sprite_on_canvas encCell canvas planet ptop pleft
  let canvas := place_sprite_on_canvas encCell canvas sat stop sleft
  if debug then draw_hud canvas hud_lines hud_fg bg else canvas

theorem draw_controls_char (canvas : List (List String)) (controls : List Char)
    (fg bg : Color) (h : 1 ≤ canvas.length) :
    draw_controls canvas controls fg bg
      = canvas.set (canvas.length - 1)
          ((List.range (truncated_controls controls (canvas.headD []).length).length).foldl
            (fun row i => row.set i (fg_on_bg_char_true fg bg
              ((truncated_controls controls (canvas.headD []).length).getD i ' ')))
            (canvas.getD (canvas.length - 1) [])) := by
  unfold draw_controls
  exact setrow_collapse (canvas.length - 1) _ _ canvas (by omega)

theorem draw_hud_char (canvas : List (List String)) (hud_lines : List (List Char))
    (fg bg : Color) :
    (draw_hud canvas hud_lines fg bg).length = canvas.length
    ∧ ∀ i, (draw_hud canvas hud_lines fg bg).getD i []
        = if i < min hud_lines.length (canvas.length - 2) then
            (List.range (min ((hud_lines.getD i []).length) ((canvas.headD []).length))).foldl
              (fun row ci => row.set ci
                (fg_on_bg_char_true fg bg ((hud_lines.getD i []).getD ci ' ')))
              (canvas.getD i [])
          else canvas.getD i [] := by
  unfold draw_hud
  exact hud_outer_char _ _ _ canvas (fun hi h => by omega)

set_option maxHeartbeats 1600000 in
/-- C1 (amended): the per-frame compositing order is background fill, then
the single-line control hint, then the fixed-body sprite, then the
moving-body sprite, and finally the optional diagnostic overlay. The
control hint is drawn BEFORE the sprites, so at any canvas cell where the
hint and a sprite overlap it is the sprite's color that remains in the
flushed frame; the diagnostic overlay, when enabled, wins over
everything. This theorem characterizes every cell of the composed frame
accordingly. -/
theorem compose_frame_draw_order (sh sw : ℕ) (bg : Color)
    (planet sat : List (List (Option Color))) (ptop pleft stop sleft : ℤ)
    (debug : Bool) (hud_lines : List (List Char)) (i j : ℕ) (hi : i < sh) (hj : j < sw) :
    ((compose_frame sh sw bg planet sat ptop pleft stop sleft debug
        hud_lines).getD i []).getD j ""
      = if debug = true ∧ i < min hud_lines.length (sh - 2)
            ∧ j < min ((hud_lines.getD i []).length) sw then
          fg_on_bg_char_true hud_fg bg ((hud_lines.getD i []).getD j ' ')
        else (blit_px sat stop sleft i j).elim
          ((blit_px planet ptop pleft i j).elim
            (if i = sh - 1 ∧ j < (truncated_controls controls_text sw).length then
              fg_on_bg_char_true controls_fg bg
                ((truncated_controls controls_text sw).getD j ' ')
            else bg_color_block_true bg.1 bg.2.1 bg.2.2)
            encCell)
          encCell := by
  have hsh1 : 1 ≤ sh := by omega
  set C0 := build_canvas sh sw (bg_color_block_true bg.1 bg.2.1 bg.2.2) with hC0def
  have hC0len : C0.length = sh := by
    rw [hC0def]
    unfold build_canvas
    exact List.length_replicate _ _
  have hC0row : ∀ t, t < sh → C0.getD t []
      = List.replicate sw (bg_color_block_true bg.1 bg.2.1 bg.2.2) := by
    intro t ht
    rw [hC0def]
    unfold build_canvas
    exact getD_replicate _ _ _ _ ht
  have hC0head : (C0.headD []).length = sw := by
    rw [headD_eq_getD_zero, hC0row 0 (by omega), List.length_replicate]
  set C1 := draw_controls C0 controls_text controls_fg bg with hC1def
  have hC1eq : C1 = C0.set (sh - 1)
      ((List.range (truncated_controls controls_text sw).length).foldl
        (fun row t => row.set t (fg_on_bg_char_true controls_fg bg
          ((truncated_controls controls_text sw).getD t ' ')))
        (C0.getD (sh - 1) [])) := by
    have h := draw_controls_char C0 controls_text controls_fg bg (by rw [hC0len]; omega)
    rw [hC0len, hC0head] at h
    rw [hC1def]
    exact h
  have hC1len : C1.length = sh := by
    rw [hC1eq, List.length_set, hC0len]
  have hC1row : ∀ t, t < sh → (C1.getD t []).length = sw := by
    intro t ht
    rw [hC1eq]
    by_cases htk : t = sh - 1
    · subst htk
      rw [getD_set_self _ _ _ _ (by rw [hC0len]; omega), write_row_length,
        hC0row _ (by omega), List.length_replicate]
    · rw [getD_set_ne _ _ _ _ _ (fun hc => htk hc.symm), hC0row t ht, List.length_replicate]
  have hC1head : (C1.headD []).length = sw := by
    rw [headD_eq_getD_zero]
    exact hC1row 0 (by omega)
  have hC1cell : (C1.getD i []).getD j ""
      = (if i = sh - 1 ∧ j < (truncated_controls controls_text sw).length then
          fg_on_bg_char_true controls_fg bg ((truncated_controls controls_text sw).getD j ' ')
        else bg_color_block_true bg.1 bg.2.1 bg.2.2) := by
    rw [hC1eq]
    by_cases hik : i = sh - 1
    · rw [hik, getD_set_self _ _ _ _ (by rw [hC0len]; omega), write_row_getD,
        hC0row _ (by omega), List.length_replicate]
      by_cases hcl : j < (truncated_controls controls_text sw).length
      · rw [if_pos ⟨hcl, hj⟩, if_pos ⟨rfl, hcl⟩]
      · rw [if_neg (fun hc => hcl hc.1), if_neg (fun hc => hcl hc.2),
          getD_replicate _ _ _ _ hj]
    · rw [getD_set_ne _ _ _ _ _ (fun hc => hik hc.symm), hC0row i hi,
        getD_replicate _ _ _ _ hj, if_neg (fun hc => hik hc.1)]
  set C2 := place_sprite_on_canvas encCell C1 planet ptop pleft with hC2def
  have hC2len : C2.length = sh := by
    rw [hC2def, place_sprite_length, hC1len]
  have hC2row : ∀ t, t < sh → (C2.getD t []).length = sw := by
    intro t ht
    rw [hC2def, place_sprite_row_length]
    exact hC1row t ht
  have hC2head : (C2.headD []).length = sw := by
    rw [headD_eq_getD_zero]
    exact hC2row 0 (by omega)
  have hC2cell : (C2.getD i []).getD j ""
      = (blit_px planet ptop pleft i j).elim ((C1.getD i []).getD j "") encCell := by
    rw [hC2def]
    exact place_sprite_cell encCell C1 planet ptop pleft i j (by rw [hC1len]; exact hi)
      (by rw [hC1row i hi, hC1head]) (by rw [hC1head]; exact hj)
  set C3 := place_sprite_on_canvas encCell C2 sat stop sleft with hC3def
  have hC3len : C3.length = sh := by
    rw [hC3def, place_sprite_length, hC2len]
  have hC3row : ∀ t, t < sh → (C3.getD t []).length = sw := by
    intro t ht
    rw [hC3def, place_sprite_row_length]
    exact hC2row t ht
  have hC3head : (C3.headD []).length = sw := by
    rw [headD_eq_getD_zero]
    exact hC3row 0 (by omega)
  have hC3cell : (C3.getD i []).getD j ""
      = (blit_px sat stop sleft i j).elim ((C2.getD i []).getD j "") encCell := by
    rw [hC3def]
    exact place_sprite_cell encCell C2 sat stop sleft i j (by rw [hC2len]; exact hi)
      (by rw [hC2row i hi, hC2head]) (by rw [hC2head]; exact hj)
  have hcf : compose_frame sh sw bg planet sat ptop pleft stop sleft debug hud_lines
      = if debug then draw_hud C3 hud_lines hud_fg bg else C3 := rfl
  rw [hcf]
  cases debug with
  | false =>
    rw [if_neg (by simp), if_neg (by simp)]
    rw [hC3cell, hC2cell, hC1cell]
  | true =>
    rw [if_pos rfl]
    obtain ⟨hhl, hhr⟩ := draw_hud_char C3 hud_lines hud_fg bg
    rw [hhr i, hC3len, hC3head]
    by_cases hcov : i < min hud_lines.length (sh - 2)
    · rw [if_pos hcov, write_row_getD]
      by_cases hcj : j < min ((hud_lines.getD i []).length) sw
      · rw [if_pos ⟨hcj, by rw [hC3row i hi]; omega⟩, if_pos ⟨rfl, hcov, hcj⟩]
      · rw [if_neg (fun hc => hcj hc.1), if_neg (fun hc => hcj hc.2.2),
          hC3cell, hC2cell, hC1cell]
    · rw [if_neg hcov, if_neg (fun hc => hcov hc.2.1), hC3cell, hC2cell, hC1cell]

/-- C1 witness: the amended frame characterization at a concrete 3×3
frame with a 1×1 satellite over the control-hint row. -/
theorem compose_frame_draw_order_witness :
    ((0 : ℕ) < 3 ∧ (1 : ℕ) < 3) ∧
    ((compose_frame 3 3 (18, 8, 84) [[none]] [[some ((10, 20, 30) : Color)]] 0 0 2 0 false
        []).getD 0 []).getD 1 ""
      = if (false = true ∧ (0 : ℕ) < min ([] : List (List Char)).length (3 - 2)
            ∧ (1 : ℕ) < min ((([] : List (List Char)).getD 0 []).length) 3) then
          fg_on_bg_char_true hud_fg (18, 8, 84) ((([] : List (List Char)).getD 0 []).getD 1 ' ')
        else (blit_px [[some ((10, 20, 30) : Color)]] 2 0 0 1).elim
          ((blit_px [[none]] 0 0 0 1).elim
            (if (0 : ℕ) = 3 - 1 ∧ (1 : ℕ) < (truncated_controls controls_text 3).length then
              fg_on_bg_char_true controls_fg (18, 8, 84)
                ((truncated_controls controls_text 3).getD 1 ' ')
            else bg_color_block_true 18 8 84)
            encCell)
          encCell :=
  ⟨⟨by norm_num, by norm_num⟩,
    compose_frame_draw_order 3 3 (18, 8, 84) [[none]] [[some ((10, 20, 30) : Color)]] 0 0 2 0
      false [] 0 1 (by norm_num) (by norm_num)⟩

/-- C1 counterexample: in a 3×3 frame whose 1×1 satellite sprite sits on
the bottom-left cell `(2, 0)` — the cell where the control hint writes its
first character `W` — the flushed frame holds the satellite's color cell,
not the control-hint character cell: the hint is drawn BEFORE the sprites,
so the sprite wins the overlap, contrary to the claimed order. -/
theorem compose_frame_hint_over_sprite_cex :
    (truncated_controls controls_text 3).getD 0 ' ' = 'W'
    ∧ ((compose_frame 3 3 (18, 8, 84) [[none]] [[some ((10, 20, 30) : Color)]] 0 0 2 0 false
        []).getD 2 []).getD 0 ""
      = encCell (10, 20, 30)
    ∧ encCell (10, 20, 30) ≠ fg_on_bg_char_true controls_fg (18, 8, 84) 'W' := by
  refine ⟨by decide, by decide, by decide⟩

end SimOne
